import Mathlib

/-!
Shallow embedding of the resume allocation core of `src/lib/bulletPointOptimizer.ts`
(classes `BulletPointOptimizer` and `DynamicResumeBuilder`) together with the data
model of `src/lib/types.ts`, and proofs about the allocation behaviour.

Modelling conventions:
* JavaScript numbers that the code only ever uses as non-negative counts are `Nat`;
  relevance scores and the legacy allocator's bullet-count arithmetic (which can go
  negative through `availableBullets - bulletCount`) are `Int`.
* `x || d` on an optional number is modelled by `jsOrNat` / `jsOrInt` (both
  `undefined` and `0` are falsy in JavaScript).
* `Array.prototype.sort` with comparator `(a, b) => key b - key a` is a stable
  descending sort; it is modelled by the stable insertion sort `sortDescBy`.
* The optional `allBullets` field of `Experience`/`Project` is never read by the
  modelled functions and is omitted from the records.
-/

namespace Resume

/-- `BulletPointPool` of `types.ts`. -/
structure BulletPointPool where
  id : String
  category : String
  content : String
  skills : List String
  impact : Option String
  relevanceScore : Option Int
  experienceId : Option String
deriving DecidableEq

/-- `Experience` of `types.ts`. -/
structure Experience where
  id : Int
  organization : String
  position : String
  dates : String
  bullets : List String
deriving DecidableEq

/-- `Project` of `types.ts`. -/
structure Project where
  id : Int
  name : String
  technologies : String
  bullets : List String
deriving DecidableEq

/-- `Education` of `types.ts`. -/
structure Education where
  id : Int
  degree : String
  institution : String
  graduationDate : String
  courses : List String
  bullets : Option (List String)
deriving DecidableEq

/-- `PersonalInfo` of `types.ts`. -/
structure PersonalInfo where
  name : String
  title : String
  email : String
  linkedin : String
  github : String
  portfolio : String
  phone : Option String
  location : Option String
deriving DecidableEq

/-- `Skills` of `types.ts`. -/
structure Skills where
  programmingLanguages : List String
  machineLearning : List String
  softwareAndTools : List String
  cloudAndDevOps : List String
  frameworksAndLibraries : List String
  softSkills : List String
deriving DecidableEq

/-- `ResumeData` of `types.ts`. -/
structure ResumeData where
  personalInfo : PersonalInfo
  experience : List Experience
  projects : List Project
  skills : Skills
  education : List Education
deriving DecidableEq

/-- `JobAnalysis` of `types.ts` (the string-union fields are plain strings here). -/
structure JobAnalysis where
  id : String
  jobTitle : String
  company : String
  description : String
  requiredSkills : List String
  preferredSkills : List String
  keywords : List String
  seniority : String
  industry : String
  technicalFocus : List String
  leadershipLevel : String
deriving DecidableEq

/-- `RankedBullet` of `types.ts`. -/
structure RankedBullet where
  bulletId : String
  relevanceScore : Int
  reasoning : String
deriving DecidableEq

/-- `RankedSkill` of `types.ts`. -/
structure RankedSkill where
  skill : String
  relevanceScore : Int
deriving DecidableEq

/-- `RankedSkillCategories` of `types.ts`. -/
structure RankedSkillCategories where
  programmingLanguages : List RankedSkill
  frameworks : List RankedSkill
  tools : List RankedSkill
  others : List RankedSkill
deriving DecidableEq

/-- `EnhancedJobAnalysisResponse` of `types.ts`. -/
structure EnhancedJobAnalysisResponse where
  analysis : JobAnalysis
  rankedBullets : List RankedBullet
  rankedSkills : RankedSkillCategories
  matchScore : Int
  recommendations : List String
  optimizationSuggestions : List String
deriving DecidableEq

/-- `DynamicResumeRequest` of `types.ts`; `maxJobs`/`minBulletsPerJob` are optional. -/
structure DynamicResumeRequest where
  originalResume : ResumeData
  rankedContent : EnhancedJobAnalysisResponse
  bulletPool : List BulletPointPool
  maxJobs : Option Nat
  minBulletsPerJob : Option Nat
deriving DecidableEq

/-- `PageSpaceEstimate` of `types.ts`; `remainingLines` may be negative. -/
structure PageSpaceEstimate where
  totalAvailableLines : Nat
  usedLines : Nat
  remainingLines : Int
  canFitMoreContent : Bool
deriving DecidableEq

/-- The anonymous `optimizationDetails` record of `OptimizedResumeContent`. -/
structure OptimizationDetails where
  totalBulletsAdded : Nat
  skillsReordered : Bool
  projectSelected : Bool
  jobsPrioritized : Bool
deriving DecidableEq

/-- `OptimizedResumeContent` of `types.ts`. -/
structure OptimizedResumeContent where
  resumeData : ResumeData
  usedBullets : List String
  selectedProjectId : Option Int
  pageSpaceUsed : PageSpaceEstimate
  optimizationDetails : OptimizationDetails
deriving DecidableEq

/-! ### JavaScript helpers -/

/-- JavaScript `x || d` for an optional non-negative number (`undefined` and `0` are falsy). -/
def jsOrNat (x : Option Nat) (d : Nat) : Nat :=
  match x with
  | none => d
  | some n => if n = 0 then d else n

/-- JavaScript `x || d` for an optional number (`undefined` and `0` are falsy). -/
def jsOrInt (x : Option Int) (d : Int) : Int :=
  match x with
  | none => d
  | some n => if n = 0 then d else n

/-- Does `hay` start with `needle`? -/
def listStartsWith : List Char → List Char → Bool
  | _, [] => true
  | [], _ :: _ => false
  | a :: as, b :: bs => a == b && listStartsWith as bs

/-- Does `hay` contain `needle` as a contiguous run? -/
def listHasInfix (needle : List Char) : List Char → Bool
  | [] => listStartsWith [] needle
  | c :: rest => listStartsWith (c :: rest) needle || listHasInfix needle rest

/-- JavaScript `s.includes(t)`. -/
def strIncludes (s t : String) : Bool :=
  listHasInfix t.toList s.toList

/-- Stable insertion into a list kept in descending `key` order: `a` is placed in
front of the first element whose key is not larger, so elements inserted earlier
in `sortDescBy` (which come later in the original list) stay behind equal keys. -/
def insertDescBy (key : α → Int) (a : α) : List α → List α
  | [] => [a]
  | b :: l => if key b ≤ key a then a :: b :: l else b :: insertDescBy key a l

/-- Stable descending sort, modelling `arr.sort((a, b) => key b - key a)`. -/
def sortDescBy (key : α → Int) : List α → List α
  | [] => []
  | a :: l => insertDescBy key a (sortDescBy key l)

/-- First element of the list attaining the maximal key (ties favour the earlier
element).  This is the specification-side description of "pick the single
highest-scoring item, stable tie-break: first in original order". -/
def firstMaxBy (key : α → Int) : List α → Option α
  | [] => none
  | a :: l =>
    match firstMaxBy key l with
    | none => some a
    | some b => if key b ≤ key a then some a else some b

/-! ### Page constants of `DynamicResumeBuilder` -/

def TOTAL_PAGE_LINES : Nat := 62
def STATIC_CONTENT_LINES : Nat := 12
def PROJECT_HEADER_LINES : Nat := 2
def JOB_HEADER_LINES : Nat := 2
def SKILLS_SECTION_LINES : Nat := 8
def SECTION_HEADER_LINES : Nat := 1
def MAX_BULLETS_PER_JOB : Nat := 6

/-! ### Project selection (`DynamicResumeBuilder.selectBestProject`) -/

/-- A separator character of the regular expression `[,\s]+`. -/
def isSepChar (c : Char) : Bool := c == ',' || c.isWhitespace

theorem dropWhileLengthLe (p : α → Bool) (l : List α) :
    (l.dropWhile p).length ≤ l.length := by
  induction l with
  | nil => simp [List.dropWhile]
  | cons a l ih =>
    rw [List.dropWhile_cons]
    split
    · exact Nat.le_succ_of_le ih
    · exact Nat.le_refl _

/-- Worker for `splitTech`: `acc` holds the current token, reversed. -/
def splitSepRuns (acc : List Char) : List Char → List String
  | [] => [String.mk acc.reverse]
  | c :: rest =>
    if isSepChar c then
      String.mk acc.reverse :: splitSepRuns [] (rest.dropWhile isSepChar)
    else
      splitSepRuns (c :: acc) rest
termination_by l => l.length
decreasing_by
  · simp only [List.length_cons]
    have h := dropWhileLengthLe isSepChar rest
    omega
  · simp

/-- JavaScript `s.split(/[,\s]+/)`: split on runs of separators, keeping the
leading/trailing empty token produced by a separator at either end. -/
def splitTech (s : String) : List String :=
  splitSepRuns [] s.toList

/-- The inline project score of `selectBestProject`: how many technology tags
case-insensitively substring-match (either direction) a required or preferred skill. -/
def projectMatchScore (rankedContent : EnhancedJobAnalysisResponse) (project : Project) : Int :=
  ((splitTech project.technologies).filter (fun skill =>
    (rankedContent.analysis.requiredSkills ++ rankedContent.analysis.preferredSkills).any
      (fun reqSkill =>
        strIncludes skill.toLower reqSkill.toLower || strIncludes reqSkill.toLower skill.toLower))).length

/-- `DynamicResumeBuilder.selectBestProject`. -/
def selectBestProject (projects : List Project)
    (rankedContent : EnhancedJobAnalysisResponse) : Option Project :=
  if projects.length = 0 then none
  else
    let projectScores := projects.map (fun p => (p, projectMatchScore rankedContent p))
    ((sortDescBy (fun ps => ps.2) projectScores).head?).map (fun ps => ps.1)

/-! ### Ranked bullets for a job (`DynamicResumeBuilder.getRankedBulletsForJob`) -/

/-- The element type of the array built in `getRankedBulletsForJob`. -/
structure Cand where
  bulletId : String
  content : String
  relevanceScore : Int
deriving DecidableEq

/-- The synthetic id of a job's own bullet: `` `${job.id}-${index}` ``. -/
def natBulletId (job : Experience) (index : Nat) : String :=
  toString job.id ++ "-" ++ toString index

/-- `rankedBullets.find(rb => rb.bulletId === bid)?.relevanceScore || dflt`. -/
def bulletScoreOf (rankedBullets : List RankedBullet) (bid : String) (dflt : Int) : Int :=
  jsOrInt ((rankedBullets.find? (fun rb => rb.bulletId == bid)).map
    (fun rb => rb.relevanceScore)) dflt

/-- The `job.bullets.forEach((bullet, index) => ...)` part of
`getRankedBulletsForJob`, with explicit running index. -/
def nativeCands (job : Experience) (rankedBullets : List RankedBullet) :
    Nat → List String → List Cand
  | _, [] => []
  | i, b :: rest =>
    ⟨natBulletId job i, b, bulletScoreOf rankedBullets (natBulletId job i) 50⟩
      :: nativeCands job rankedBullets (i + 1) rest

/-- The bullet-pool part of `getRankedBulletsForJob`
(`bulletPool.filter(bp => bp.experienceId === job.id.toString())`). -/
def poolCands (job : Experience) (rankedBullets : List RankedBullet)
    (bulletPool : List BulletPointPool) : List Cand :=
  (bulletPool.filter (fun bp => bp.experienceId == some (toString job.id))).map
    (fun bp => ⟨bp.id, bp.content, bulletScoreOf rankedBullets bp.id 30⟩)

/-- The `allBullets` array of `getRankedBulletsForJob`, before sorting. -/
def candidatesForJob (job : Experience) (rankedBullets : List RankedBullet)
    (bulletPool : List BulletPointPool) : List Cand :=
  nativeCands job rankedBullets 0 job.bullets ++ poolCands job rankedBullets bulletPool

/-- `DynamicResumeBuilder.getRankedBulletsForJob`. -/
def getRankedBulletsForJob (job : Experience) (rankedBullets : List RankedBullet)
    (bulletPool : List BulletPointPool) : List Cand :=
  sortDescBy (fun c => c.relevanceScore) (candidatesForJob job rankedBullets bulletPool)

/-! ### Skill reordering (`buildRankedSkills` / `reorderSkillsByRanking`) -/

/-- `skillRankMap.get(skill.toLowerCase()) || 0`.  The JavaScript `Map` built from
the ranked-skill entries keeps the **last** entry for a duplicated key, hence the
reversed `find?`; `|| 0` coincides with `getD 0` because the default is `0`. -/
def skillScore (rankedSkills : List RankedSkill) (skill : String) : Int :=
  ((rankedSkills.reverse.find? (fun rs => rs.skill.toLower == skill.toLower)).map
    (fun rs => rs.relevanceScore)).getD 0

/-- `DynamicResumeBuilder.reorderSkillsByRanking`. -/
def reorderSkillsByRanking (originalSkills : List String)
    (rankedSkills : List RankedSkill) : List String :=
  (sortDescBy (fun p => p.2)
    (originalSkills.map (fun skill => (skill, skillScore rankedSkills skill)))).map
    (fun p => p.1)

/-- `DynamicResumeBuilder.buildRankedSkills`. -/
def buildRankedSkills (originalSkills : Skills)
    (rankedSkills : RankedSkillCategories) : Skills :=
  { programmingLanguages :=
      reorderSkillsByRanking originalSkills.programmingLanguages rankedSkills.programmingLanguages
    frameworksAndLibraries :=
      reorderSkillsByRanking originalSkills.frameworksAndLibraries rankedSkills.frameworks
    softwareAndTools :=
      reorderSkillsByRanking originalSkills.softwareAndTools rankedSkills.tools
    cloudAndDevOps :=
      reorderSkillsByRanking originalSkills.cloudAndDevOps rankedSkills.others
    machineLearning :=
      reorderSkillsByRanking originalSkills.machineLearning rankedSkills.others
    softSkills := originalSkills.softSkills }

/-! ### The standalone estimator (`DynamicResumeBuilder.estimateRemainingSpace`) -/

/-- The `usedLines` accumulation inside `estimateRemainingSpace`. -/
def estimateUsedLines (resumeData : ResumeData) : Nat :=
  let base := STATIC_CONTENT_LINES + SKILLS_SECTION_LINES
  let withExp :=
    if resumeData.experience.length > 0 then
      base + SECTION_HEADER_LINES
        + ((resumeData.experience.map (fun exp => JOB_HEADER_LINES + exp.bullets.length)).sum)
    else base
  if resumeData.projects.length > 0 then
    withExp + SECTION_HEADER_LINES
      + ((resumeData.projects.map (fun p => PROJECT_HEADER_LINES + p.bullets.length)).sum)
  else withExp

/-- `DynamicResumeBuilder.estimateRemainingSpace` (`Math.max(0, TOTAL - usedLines)`). -/
def estimateRemainingSpace (resumeData : ResumeData) : Int :=
  max 0 ((TOTAL_PAGE_LINES : Int) - (estimateUsedLines resumeData : Int))

/-! ### `DynamicResumeBuilder.buildOptimizedResume`

The imperative body is decomposed into named stages; every stage mirrors one
numbered step of the source.  `buildOptimizedResume` below assembles them. -/

/-- `request.maxJobs || 2`. -/
def maxJobsVal (request : DynamicResumeRequest) : Nat :=
  jsOrNat request.maxJobs 2

/-- `request.minBulletsPerJob || 3`. -/
def minBulletsVal (request : DynamicResumeRequest) : Nat :=
  jsOrNat request.minBulletsPerJob 3

/-- Step 3 slice: `originalResume.experience.slice(0, maxJobs)`. -/
def includedJobs (request : DynamicResumeRequest) : List Experience :=
  request.originalResume.experience.take (maxJobsVal request)

/-- Steps 1 and 2: the project list and the `usedLines` value after static
content and project selection. -/
def projectPhase (request : DynamicResumeRequest) : List Project × Nat :=
  match selectBestProject request.originalResume.projects request.rankedContent with
  | some p =>
      ([p], STATIC_CONTENT_LINES + SKILLS_SECTION_LINES
        + PROJECT_HEADER_LINES + SECTION_HEADER_LINES + p.bullets.length)
  | none => ([], STATIC_CONTENT_LINES + SKILLS_SECTION_LINES)

/-- The per-job body of step 3: keep the `minBulletsPerJob` best-ranked bullets. -/
def trimJob (rankedBullets : List RankedBullet) (bulletPool : List BulletPointPool)
    (minB : Nat) (job : Experience) : Experience :=
  let kept := ((getRankedBulletsForJob job rankedBullets bulletPool).take minB).map
    (fun c => c.content)
  { job with bullets := kept }

/-- The experience entries after step 3 (before the greedy fill). -/
def preFillExperience (request : DynamicResumeRequest) : List Experience :=
  (includedJobs request).map
    (trimJob request.rankedContent.rankedBullets request.bulletPool (minBulletsVal request))

/-- The `usedBullets` accumulator after step 3. -/
def preFillUsedBullets (request : DynamicResumeRequest) : List String :=
  ((includedJobs request).map (fun job =>
    ((getRankedBulletsForJob job request.rankedContent.rankedBullets request.bulletPool).take
      (minBulletsVal request)).map (fun c => c.bulletId))).flatten

/-- `usedLines` after step 3: each included job is charged
`JOB_HEADER_LINES + minBulletsPerJob`, and the experience section header is
charged unconditionally. -/
def preFillUsedLines (request : DynamicResumeRequest) : Nat :=
  (projectPhase request).2 + SECTION_HEADER_LINES
    + (includedJobs request).length * (JOB_HEADER_LINES + minBulletsVal request)

/-- The fill loop over the first job's remaining ranked candidates
(`for (let i = minBulletsPerJob; ...; bulletsAdded < Math.min(remainingLines,
maxAdditionalForFirstJob); i++)`).  Returns the job's bullets, the `usedBullets`
accumulator and `bulletsAdded`. -/
def fillFirstJob (cands : List Cand) (bullets used : List String)
    (added limit : Nat) : List String × List String × Nat :=
  match cands with
  | [] => (bullets, used, added)
  | c :: rest =>
    if added < limit then
      if used.contains c.bulletId then
        fillFirstJob rest bullets used added limit
      else
        fillFirstJob rest (bullets ++ [c.content]) (used ++ [c.bulletId]) (added + 1) limit
    else (bullets, used, added)

/-- The fill loop over the second job's remaining ranked candidates
(`... bulletsAdded < remainingLines && secondJob.bullets.length <
MAX_BULLETS_PER_JOB; i++`). -/
def fillSecondJob (cands : List Cand) (bullets used : List String)
    (added rem : Nat) : List String × List String × Nat :=
  match cands with
  | [] => (bullets, used, added)
  | c :: rest =>
    if added < rem ∧ bullets.length < MAX_BULLETS_PER_JOB then
      if used.contains c.bulletId then
        fillSecondJob rest bullets used added rem
      else
        fillSecondJob rest (bullets ++ [c.content]) (used ++ [c.bulletId]) (added + 1) rem
    else (bullets, used, added)

/-- The guarded fill of the first included job
(`if (mostRecentJob && mostRecentJob.bullets.length < MAX_BULLETS_PER_JOB) { ... }`).
`bullets` are the job entry's current bullets, `j` the corresponding original job. -/
def firstJobStep (rankedBullets : List RankedBullet) (bulletPool : List BulletPointPool)
    (minB : Nat) (j : Experience) (bullets used : List String) (rem : Nat) :
    List String × List String × Nat :=
  if bullets.length < MAX_BULLETS_PER_JOB then
    fillFirstJob ((getRankedBulletsForJob j rankedBullets bulletPool).drop minB)
      bullets used 0 (min rem (MAX_BULLETS_PER_JOB - bullets.length))
  else (bullets, used, 0)

/-- The guarded fill of the second included job
(`if (secondJob && bulletsAdded < remainingLines && secondJob.bullets.length < ...)`). -/
def secondJobStep (rankedBullets : List RankedBullet) (bulletPool : List BulletPointPool)
    (minB : Nat) (j : Experience) (bullets used : List String) (added rem : Nat) :
    List String × List String × Nat :=
  if added < rem ∧ bullets.length < MAX_BULLETS_PER_JOB then
    fillSecondJob ((getRankedBulletsForJob j rankedBullets bulletPool).drop minB)
      bullets used added rem
  else (bullets, used, added)

/-- Step 4 of `buildOptimizedResume`: fill remaining page space with extra
bullets for the first and then the second included job.  Returns the updated
experience list, the `usedBullets` accumulator and `bulletsAdded`. -/
def fillPhase (rankedBullets : List RankedBullet) (bulletPool : List BulletPointPool)
    (minB : Nat) (jobsToInclude experience : List Experience)
    (usedBullets : List String) (usedLines : Nat) :
    List Experience × List String × Nat :=
  if usedLines < TOTAL_PAGE_LINES then
    let rem := TOTAL_PAGE_LINES - usedLines
    match experience, jobsToInclude with
    | e1 :: restE, j1 :: restJ =>
      let r1 := firstJobStep rankedBullets bulletPool minB j1 e1.bullets usedBullets rem
      let e1Out : Experience := { e1 with bullets := r1.1 }
      match restE, restJ with
      | e2 :: restE2, j2 :: _ =>
        let r2 := secondJobStep rankedBullets bulletPool minB j2 e2.bullets r1.2.1 r1.2.2 rem
        (e1Out :: { e2 with bullets := r2.1 } :: restE2, r2.2.1, r2.2.2)
      | _, _ => (e1Out :: restE, r1.2.1, r1.2.2)
    | _, _ => (experience, usedBullets, 0)
  else (experience, usedBullets, 0)

/-- The step-4 result for a whole request. -/
def fillResult (request : DynamicResumeRequest) : List Experience × List String × Nat :=
  fillPhase request.rankedContent.rankedBullets request.bulletPool (minBulletsVal request)
    (includedJobs request) (preFillExperience request) (preFillUsedBullets request)
    (preFillUsedLines request)

/-- `DynamicResumeBuilder.buildOptimizedResume`. -/
def buildOptimizedResume (request : DynamicResumeRequest) : OptimizedResumeContent :=
  let selectedProject :=
    selectBestProject request.originalResume.projects request.rankedContent
  let usedLinesFinal := preFillUsedLines request + (fillResult request).2.2
  { resumeData :=
      { personalInfo := request.originalResume.personalInfo
        education := request.originalResume.education
        experience := (fillResult request).1
        projects := (projectPhase request).1
        skills := buildRankedSkills request.originalResume.skills
          request.rankedContent.rankedSkills }
    usedBullets := (fillResult request).2.1
    selectedProjectId := selectedProject.map (fun p => p.id)
    pageSpaceUsed :=
      { totalAvailableLines := TOTAL_PAGE_LINES
        usedLines := usedLinesFinal
        remainingLines := (TOTAL_PAGE_LINES : Int) - (usedLinesFinal : Int)
        canFitMoreContent := decide ((TOTAL_PAGE_LINES : Int) - (usedLinesFinal : Int) > 2) }
    optimizationDetails :=
      { totalBulletsAdded := (fillResult request).2.1.length
        skillsReordered := true
        projectSelected := selectedProject.isSome
        jobsPrioritized := true } }

/-! ### The legacy optimizer (`BulletPointOptimizer`) -/

/-- The element type of `calculateOptimalAllocation`'s working array (the
`prioritizedJobs` objects, which also carry `availableBullets`).  Counts are
`Int` because `availableBullets - bulletCount` can be negative. -/
structure BulletAllocation where
  experienceId : Int
  bulletCount : Int
  priority : Int
  availableBullets : Int
deriving DecidableEq

/-- The `forEach` distribution of extra bullets, threading `remainingExtra`. -/
def distributeExtra : List BulletAllocation → Int → List BulletAllocation
  | [], _ => []
  | j :: rest, remainingExtra =>
    if remainingExtra > 0 then
      let maxAdditional :=
        min (min remainingExtra (j.availableBullets - j.bulletCount)) 3
      { j with bulletCount := j.bulletCount + maxAdditional }
        :: distributeExtra rest (remainingExtra - maxAdditional)
    else j :: distributeExtra rest remainingExtra

/-- One element of the `prioritizedJobs` array: initial `bulletCount` is the
per-job minimum, `priority` is `totalJobs - index` (most recent job highest),
and `availableBullets` counts the job's own bullets. -/
def mkPrioritizedJob (minBulletsPerJob totalJobs : Nat)
    (p : Nat × Experience) : BulletAllocation :=
  { experienceId := p.2.id
    bulletCount := (minBulletsPerJob : Int)
    priority := (totalJobs : Int) - (p.1 : Int)
    availableBullets := (p.2.bullets.length : Int) }

/-- `BulletPointOptimizer.calculateOptimalAllocation`. -/
def calculateOptimalAllocation (experiences : List Experience)
    (maxTotalBullets minBulletsPerJob : Nat) : List BulletAllocation :=
  let totalJobs := experiences.length
  let minTotalBullets := totalJobs * minBulletsPerJob
  let extraBullets : Int := max 0 ((maxTotalBullets : Int) - (minTotalBullets : Int))
  let prioritizedJobs := experiences.enum.map (mkPrioritizedJob minBulletsPerJob totalJobs)
  distributeExtra (sortDescBy (fun j => j.priority) prioritizedJobs) extraBullets

/-- The impact heuristic inside `selectBestBullets`. -/
def impactScore (bullet : BulletPointPool) : Int :=
  match bullet.impact with
  | none => 1
  | some s =>
    if strIncludes s "%" then 3
    else if strIncludes s "improvement" || strIncludes s "reduction" then 2
    else 1

/-- `BulletPointOptimizer.selectBestBullets`. -/
def selectBestBullets (experience : Experience) (bulletPool : List BulletPointPool)
    (targetCount : Nat) : Experience :=
  let additionalBullets :=
    sortDescBy impactScore
      (bulletPool.filter (fun b => b.experienceId == some (toString experience.id)))
  let allAvailableBullets := experience.bullets ++ additionalBullets.map (fun b => b.content)
  { experience with bullets := allAvailableBullets.take targetCount }

/-- `allocation.find(a => a.experienceId === exp.id)?.bulletCount || MIN_BULLETS_PER_JOB`. -/
def legacyTarget (allocation : List BulletAllocation) (minBulletsPerJob : Int)
    (exp : Experience) : Int :=
  jsOrInt ((allocation.find? (fun a => a.experienceId == exp.id)).map
    (fun a => a.bulletCount)) minBulletsPerJob

/-- `BulletPointOptimizer.optimizeBulletsForSinglePage`. -/
def optimizeBulletsForSinglePage (resumeData : ResumeData)
    (bulletPool : List BulletPointPool) : ResumeData :=
  let maxTotalBullets : Nat := 18
  let minBulletsPerJob : Nat := 4
  let allocation := calculateOptimalAllocation resumeData.experience maxTotalBullets minBulletsPerJob
  let optimizedExperience := resumeData.experience.map (fun exp =>
    selectBestBullets exp bulletPool
      (legacyTarget allocation (minBulletsPerJob : Int) exp).toNat)
  let optimizedProjects := resumeData.projects.map (fun project =>
    { project with bullets := project.bullets.take 4 })
  { resumeData with experience := optimizedExperience, projects := optimizedProjects }

/-- Total bullet count over all experience entries of a document. -/
def totalExperienceBullets (resumeData : ResumeData) : Nat :=
  (resumeData.experience.map (fun e => e.bullets.length)).sum

/-! ### Concrete fixtures used by counterexamples and witnesses -/

def emptySkills : Skills := ⟨[], [], [], [], [], []⟩

def emptyPersonal : PersonalInfo := ⟨"", "", "", "", "", "", none, none⟩

def emptyAnalysis : JobAnalysis := ⟨"", "", "", "", [], [], [], "", "", [], ""⟩

def emptyRankedCats : RankedSkillCategories := ⟨[], [], [], []⟩

def emptyRanked : EnhancedJobAnalysisResponse := ⟨emptyAnalysis, [], emptyRankedCats, 0, [], []⟩

def mkJob (id : Int) (bullets : List String) : Experience := ⟨id, "", "", "", bullets⟩

def mkProject (id : Int) (bullets : List String) : Project := ⟨id, "", "", bullets⟩

def mkResume (exps : List Experience) (projs : List Project) : ResumeData :=
  ⟨emptyPersonal, exps, projs, emptySkills, []⟩

def mkRequest (exps : List Experience) (projs : List Project) : DynamicResumeRequest :=
  ⟨mkResume exps projs, emptyRanked, [], none, none⟩

/-- A request with no experience and a 40-bullet project: the project is added
without any budget check, so `usedLines` overshoots the 62-line page. -/
def reqBigProject : DynamicResumeRequest :=
  mkRequest [] [mkProject 1 (List.replicate 40 "b")]

/-- A request with no experience and no projects. -/
def reqEmpty : DynamicResumeRequest := mkRequest [] []

/-- One job with seven bullets and `minBulletsPerJob = 7`: the per-job cap of 6
is bypassed because the cap is only enforced during the fill phase. -/
def reqMinSeven : DynamicResumeRequest :=
  { mkRequest [mkJob 1 ["a1", "a2", "a3", "a4", "a5", "a6", "a7"]] [] with
    minBulletsPerJob := some 7 }

/-- Two jobs with enough bullets for the default minimum of three. -/
def reqTwoJobs : DynamicResumeRequest :=
  mkRequest
    [mkJob 1 ["a1", "a2", "a3", "a4", "a5"], mkJob 2 ["b1", "b2", "b3"]] []

/-- Five jobs with four original bullets each: the legacy optimizer emits
`5 * 4 = 20` bullets, above its declared ceiling of 18. -/
def rdFiveJobs : ResumeData :=
  mkResume
    [mkJob 1 ["a", "b", "c", "d"], mkJob 2 ["a", "b", "c", "d"],
     mkJob 3 ["a", "b", "c", "d"], mkJob 4 ["a", "b", "c", "d"],
     mkJob 5 ["a", "b", "c", "d"]] []

/-! ### Lemmas about the stable descending sort -/

theorem length_insertDescBy (key : α → Int) (a : α) (l : List α) :
    (insertDescBy key a l).length = l.length + 1 := by
  induction l with
  | nil => rfl
  | cons b l ih =>
    rw [insertDescBy]
    split
    · rfl
    · simp [List.length_cons, ih]

theorem length_sortDescBy (key : α → Int) (l : List α) :
    (sortDescBy key l).length = l.length := by
  induction l with
  | nil => rfl
  | cons a l ih => rw [sortDescBy, length_insertDescBy, ih, List.length_cons]

theorem insertDescBy_perm (key : α → Int) (a : α) (l : List α) :
    (insertDescBy key a l).Perm (a :: l) := by
  induction l with
  | nil => rfl
  | cons b l ih =>
    rw [insertDescBy]
    split
    · rfl
    · exact (ih.cons b).trans (List.Perm.swap a b l)

theorem sortDescBy_perm (key : α → Int) (l : List α) :
    (sortDescBy key l).Perm l := by
  induction l with
  | nil => rfl
  | cons a l ih => exact (insertDescBy_perm key a (sortDescBy key l)).trans (ih.cons a)

theorem head?_insertDescBy (key : α → Int) (a : α) (l : List α) :
    (insertDescBy key a l).head? =
      some (match l.head? with
            | none => a
            | some b => if key b ≤ key a then a else b) := by
  cases l with
  | nil => rfl
  | cons b l =>
    rw [insertDescBy]
    by_cases hk : key b ≤ key a
    · rw [if_pos hk]; simp [hk]
    · rw [if_neg hk]; simp [hk]

theorem head?_sortDescBy (key : α → Int) (l : List α) :
    (sortDescBy key l).head? = firstMaxBy key l := by
  induction l with
  | nil => rfl
  | cons a l ih =>
    rw [sortDescBy, head?_insertDescBy, firstMaxBy, ← ih]
    cases (sortDescBy key l).head? with
    | none => rfl
    | some b => by_cases hk : key b ≤ key a <;> simp [hk]

theorem firstMaxBy_cons_ne_none (key : α → Int) (x : α) (l : List α) :
    firstMaxBy key (x :: l) ≠ none := by
  rw [firstMaxBy]
  cases firstMaxBy key l with
  | none => simp
  | some b =>
    dsimp only
    split <;> simp

theorem firstMaxBy_mem {key : α → Int} {l : List α} {a : α}
    (h : firstMaxBy key l = some a) : a ∈ l := by
  induction l generalizing a with
  | nil => cases h
  | cons x l ih =>
    rw [firstMaxBy] at h
    cases hm : firstMaxBy key l with
    | none =>
      rw [hm] at h
      dsimp only at h
      injection h with h
      subst h
      exact List.mem_cons_self x l
    | some b =>
      rw [hm] at h
      dsimp only at h
      by_cases hk : key b ≤ key x
      · rw [if_pos hk] at h
        injection h with h
        subst h
        exact List.mem_cons_self x l
      · rw [if_neg hk] at h
        injection h with h
        subst h
        exact List.mem_cons_of_mem x (ih hm)

theorem firstMaxBy_isMax {key : α → Int} {l : List α} {a : α}
    (h : firstMaxBy key l = some a) : ∀ b ∈ l, key b ≤ key a := by
  induction l generalizing a with
  | nil => cases h
  | cons x l ih =>
    rw [firstMaxBy] at h
    cases hm : firstMaxBy key l with
    | none =>
      rw [hm] at h
      dsimp only at h
      injection h with h
      subst h
      intro b hb
      rcases List.mem_cons.mp hb with rfl | hbl
      · exact le_refl _
      · exfalso
        cases l with
        | nil => cases hbl
        | cons y t => exact firstMaxBy_cons_ne_none key y t hm
    | some c =>
      rw [hm] at h
      dsimp only at h
      by_cases hk : key c ≤ key x
      · rw [if_pos hk] at h
        injection h with h
        subst h
        intro b hb
        rcases List.mem_cons.mp hb with rfl | hbl
        · exact le_refl _
        · exact le_trans (ih hm b hbl) hk
      · rw [if_neg hk] at h
        injection h with h
        subst h
        intro b hb
        rcases List.mem_cons.mp hb with rfl | hbl
        · exact le_of_lt (lt_of_not_le hk)
        · exact ih hm b hbl

theorem sortDescBy_eq_self {key : α → Int} {l : List α}
    (h : l.Pairwise (fun a b => key b ≤ key a)) : sortDescBy key l = l := by
  induction l with
  | nil => rfl
  | cons a l ih =>
    rw [sortDescBy, ih h.of_cons]
    cases l with
    | nil => rfl
    | cons b t =>
      have hb : key b ≤ key a := (List.pairwise_cons.mp h).1 b (List.mem_cons_self b t)
      rw [insertDescBy, if_pos hb]

theorem sortDescBy_of_zero {key : α → Int} {l : List α}
    (h : ∀ a ∈ l, key a = 0) : sortDescBy key l = l := by
  apply sortDescBy_eq_self
  apply List.pairwise_of_forall_mem_list
  intro a ha b hb
  rw [h a ha, h b hb]

/-! ### Lemmas about the greedy fill loops -/

theorem jsOrNat_pos (x : Option Nat) (d : Nat) (hd : 0 < d) : 0 < jsOrNat x d := by
  cases x with
  | none => exact hd
  | some n =>
    rw [jsOrNat]
    split
    · exact hd
    · omega

theorem fillFirstJob_spec (cands : List Cand) (bullets used : List String)
    (added limit : Nat) :
    (∃ ext, (fillFirstJob cands bullets used added limit).1 = bullets ++ ext)
    ∧ (fillFirstJob cands bullets used added limit).1.length + added
        = bullets.length + (fillFirstJob cands bullets used added limit).2.2
    ∧ added ≤ (fillFirstJob cands bullets used added limit).2.2
    ∧ (fillFirstJob cands bullets used added limit).2.2 ≤ max added limit := by
  induction cands generalizing bullets used added with
  | nil =>
    refine ⟨⟨[], (List.append_nil bullets).symm⟩, ?_, le_refl _, le_max_left _ _⟩
    simp [fillFirstJob]
  | cons c rest ih =>
    rw [fillFirstJob]
    by_cases hlim : added < limit
    · rw [if_pos hlim]
      by_cases hmem : used.contains c.bulletId = true
      · rw [if_pos hmem]
        exact ih bullets used added
      · rw [if_neg hmem]
        obtain ⟨⟨ext, hext⟩, hlen, hle, hmax⟩ :=
          ih (bullets ++ [c.content]) (used ++ [c.bulletId]) (added + 1)
        refine ⟨⟨[c.content] ++ ext, by rw [hext, List.append_assoc]⟩, ?_, ?_, ?_⟩
        · simp only [List.length_append, List.length_singleton] at hlen
          omega
        · omega
        · omega
    · rw [if_neg hlim]
      refine ⟨⟨[], (List.append_nil bullets).symm⟩, ?_, le_refl _, le_max_left _ _⟩
      dsimp only

theorem fillSecondJob_spec (cands : List Cand) (bullets used : List String)
    (added rem : Nat) :
    (∃ ext, (fillSecondJob cands bullets used added rem).1 = bullets ++ ext)
    ∧ (fillSecondJob cands bullets used added rem).1.length + added
        = bullets.length + (fillSecondJob cands bullets used added rem).2.2
    ∧ added ≤ (fillSecondJob cands bullets used added rem).2.2
    ∧ (fillSecondJob cands bullets used added rem).2.2 ≤ max added rem
    ∧ (fillSecondJob cands bullets used added rem).1.length
        ≤ max bullets.length MAX_BULLETS_PER_JOB := by
  induction cands generalizing bullets used added with
  | nil =>
    refine ⟨⟨[], (List.append_nil bullets).symm⟩, ?_, le_refl _, le_max_left _ _, le_max_left _ _⟩
    simp [fillSecondJob]
  | cons c rest ih =>
    rw [fillSecondJob]
    by_cases hg : added < rem ∧ bullets.length < MAX_BULLETS_PER_JOB
    · rw [if_pos hg]
      by_cases hmem : used.contains c.bulletId = true
      · rw [if_pos hmem]
        exact ih bullets used added
      · rw [if_neg hmem]
        obtain ⟨⟨ext, hext⟩, hlen, hle, hmax, hcap⟩ :=
          ih (bullets ++ [c.content]) (used ++ [c.bulletId]) (added + 1)
        refine ⟨⟨[c.content] ++ ext, by rw [hext, List.append_assoc]⟩, ?_, ?_, ?_, ?_⟩
        · simp only [List.length_append, List.length_singleton] at hlen
          omega
        · omega
        · omega
        · simp only [List.length_append, List.length_singleton] at hcap
          have h6 : bullets.length + 1 ≤ MAX_BULLETS_PER_JOB := hg.2
          omega
    · rw [if_neg hg]
      refine ⟨⟨[], (List.append_nil bullets).symm⟩, ?_, le_refl _,
        le_max_left _ _, le_max_left _ _⟩
      dsimp only

/-! ### Specification of the fill phase -/

theorem trimJob_bullets (rb : List RankedBullet) (pool : List BulletPointPool)
    (minB : Nat) (job : Experience) :
    (trimJob rb pool minB job).bullets
      = ((getRankedBulletsForJob job rb pool).take minB).map (fun c => c.content) := rfl

theorem trimJob_length (rb : List RankedBullet) (pool : List BulletPointPool)
    (minB : Nat) (job : Experience) :
    (trimJob rb pool minB job).bullets.length
      = min minB (getRankedBulletsForJob job rb pool).length := by
  rw [trimJob_bullets, List.length_map, List.length_take]

theorem trimJob_set_bullets (rb : List RankedBullet) (pool : List BulletPointPool)
    (minB : Nat) (job : Experience) (x : List String) :
    ({ trimJob rb pool minB job with bullets := x } : Experience)
      = { job with bullets := x } := by
  cases job
  rfl

/-- How one output entry of the fill phase relates to the original included job:
it is the job with its `minBulletsPerJob` best-ranked bullets plus possibly some
filled extras (none if the job had no candidates beyond the minimum), and its
final bullet count respects `max (min minB candidates) MAX_BULLETS_PER_JOB`. -/
def fillOutRel (rb : List RankedBullet) (pool : List BulletPointPool) (minB : Nat)
    (job oj : Experience) : Prop :=
  (∃ ext, oj = { job with bullets :=
      ((getRankedBulletsForJob job rb pool).take minB).map (fun c => c.content) ++ ext }
    ∧ ((getRankedBulletsForJob job rb pool).length ≤ minB → ext = []))
  ∧ oj.bullets.length
      ≤ max (min minB (getRankedBulletsForJob job rb pool).length) MAX_BULLETS_PER_JOB

theorem fillOutRel_trim (rb : List RankedBullet) (pool : List BulletPointPool)
    (minB : Nat) (job : Experience) :
    fillOutRel rb pool minB job (trimJob rb pool minB job) := by
  refine ⟨⟨[], ?_, fun _ => rfl⟩, ?_⟩
  · rw [List.append_nil]
    rfl
  · rw [trimJob_length]
    exact le_max_left _ _

theorem forall₂_trim (rb : List RankedBullet) (pool : List BulletPointPool)
    (minB : Nat) (l : List Experience) :
    List.Forall₂ (fillOutRel rb pool minB) l (l.map (trimJob rb pool minB)) := by
  rw [List.forall₂_map_right_iff, List.forall₂_same]
  intro job _
  exact fillOutRel_trim rb pool minB job

theorem firstJobStep_spec (rb : List RankedBullet) (pool : List BulletPointPool)
    (minB : Nat) (j : Experience) (ub : List String) (rem : Nat) :
    (∃ ext, (firstJobStep rb pool minB j (trimJob rb pool minB j).bullets ub rem).1
        = (trimJob rb pool minB j).bullets ++ ext
      ∧ ((getRankedBulletsForJob j rb pool).length ≤ minB → ext = []))
    ∧ (firstJobStep rb pool minB j (trimJob rb pool minB j).bullets ub rem).1.length
        = (trimJob rb pool minB j).bullets.length
          + (firstJobStep rb pool minB j (trimJob rb pool minB j).bullets ub rem).2.2
    ∧ (firstJobStep rb pool minB j (trimJob rb pool minB j).bullets ub rem).2.2 ≤ rem
    ∧ (firstJobStep rb pool minB j (trimJob rb pool minB j).bullets ub rem).1.length
        ≤ max (min minB (getRankedBulletsForJob j rb pool).length) MAX_BULLETS_PER_JOB := by
  rw [firstJobStep]
  have htl := trimJob_length rb pool minB j
  by_cases hlen : (trimJob rb pool minB j).bullets.length < MAX_BULLETS_PER_JOB
  · rw [if_pos hlen]
    obtain ⟨⟨ext, hext⟩, hlenEq, _, hmax⟩ :=
      fillFirstJob_spec ((getRankedBulletsForJob j rb pool).drop minB)
        (trimJob rb pool minB j).bullets ub 0
        (min rem (MAX_BULLETS_PER_JOB - (trimJob rb pool minB j).bullets.length))
    refine ⟨⟨ext, hext, ?_⟩, by omega, by omega, by omega⟩
    intro hle
    rw [List.drop_eq_nil_of_le hle] at hext
    have hbs : (trimJob rb pool minB j).bullets
        = (trimJob rb pool minB j).bullets ++ ext := hext
    have hlength := congrArg List.length hbs
    rw [List.length_append] at hlength
    have : ext.length = 0 := by omega
    exact List.eq_nil_of_length_eq_zero this
  · rw [if_neg hlen]
    refine ⟨⟨[], (List.append_nil _).symm, fun _ => rfl⟩, ?_, ?_, ?_⟩
    all_goals dsimp only
    all_goals omega

theorem secondJobStep_spec (rb : List RankedBullet) (pool : List BulletPointPool)
    (minB : Nat) (j : Experience) (used1 : List String) (added1 rem : Nat)
    (h1 : added1 ≤ rem) :
    (∃ ext, (secondJobStep rb pool minB j (trimJob rb pool minB j).bullets used1 added1 rem).1
        = (trimJob rb pool minB j).bullets ++ ext
      ∧ ((getRankedBulletsForJob j rb pool).length ≤ minB → ext = []))
    ∧ (secondJobStep rb pool minB j (trimJob rb pool minB j).bullets used1 added1 rem).1.length
        + added1
        = (trimJob rb pool minB j).bullets.length
          + (secondJobStep rb pool minB j (trimJob rb pool minB j).bullets used1 added1 rem).2.2
    ∧ (secondJobStep rb pool minB j (trimJob rb pool minB j).bullets used1 added1 rem).2.2 ≤ rem
    ∧ (secondJobStep rb pool minB j (trimJob rb pool minB j).bullets used1 added1 rem).1.length
        ≤ max (min minB (getRankedBulletsForJob j rb pool).length) MAX_BULLETS_PER_JOB := by
  rw [secondJobStep]
  have htl := trimJob_length rb pool minB j
  by_cases hg : added1 < rem ∧ (trimJob rb pool minB j).bullets.length < MAX_BULLETS_PER_JOB
  · rw [if_pos hg]
    obtain ⟨⟨ext, hext⟩, hlenEq, hle, hmax, hcap⟩ :=
      fillSecondJob_spec ((getRankedBulletsForJob j rb pool).drop minB)
        (trimJob rb pool minB j).bullets used1 added1 rem
    refine ⟨⟨ext, hext, ?_⟩, by omega, by omega, by omega⟩
    intro hle2
    rw [List.drop_eq_nil_of_le hle2] at hext
    have hbs : (trimJob rb pool minB j).bullets
        = (trimJob rb pool minB j).bullets ++ ext := hext
    have hlength := congrArg List.length hbs
    rw [List.length_append] at hlength
    have : ext.length = 0 := by omega
    exact List.eq_nil_of_length_eq_zero this
  · rw [if_neg hg]
    refine ⟨⟨[], (List.append_nil _).symm, fun _ => rfl⟩, ?_, ?_, ?_⟩
    all_goals dsimp only
    all_goals omega

theorem fillPhase_spec (rb : List RankedBullet) (pool : List BulletPointPool)
    (minB : Nat) (jti : List Experience) (ub : List String) (ul : Nat) :
    List.Forall₂ (fillOutRel rb pool minB) jti
      (fillPhase rb pool minB jti (jti.map (trimJob rb pool minB)) ub ul).1
    ∧ ((fillPhase rb pool minB jti (jti.map (trimJob rb pool minB)) ub ul).1.map
        (fun e => e.bullets.length)).sum
      = ((jti.map (trimJob rb pool minB)).map (fun e => e.bullets.length)).sum
        + (fillPhase rb pool minB jti (jti.map (trimJob rb pool minB)) ub ul).2.2
    ∧ ul + (fillPhase rb pool minB jti (jti.map (trimJob rb pool minB)) ub ul).2.2
        ≤ max ul TOTAL_PAGE_LINES := by
  unfold fillPhase
  by_cases hul : ul < TOTAL_PAGE_LINES
  · rw [if_pos hul]
    cases jti with
    | nil =>
      simp only [List.map_nil]
      exact ⟨List.Forall₂.nil, by omega, by omega⟩
    | cons j1 restJ =>
      cases restJ with
      | nil =>
        simp only [List.map_cons, List.map_nil]
        obtain ⟨⟨ext, hext, hextnil⟩, hlen, hrem, hcap⟩ :=
          firstJobStep_spec rb pool minB j1 ub (TOTAL_PAGE_LINES - ul)
        refine ⟨List.Forall₂.cons ⟨⟨ext, ?_, hextnil⟩, ?_⟩ List.Forall₂.nil, ?_, ?_⟩
        · show ({ trimJob rb pool minB j1 with
            bullets := (firstJobStep rb pool minB j1 (trimJob rb pool minB j1).bullets ub
              (TOTAL_PAGE_LINES - ul)).1 } : Experience) = _
          rw [hext, trimJob_bullets, trimJob_set_bullets]
        · exact hcap
        · simp only [List.map_cons, List.map_nil, List.sum_cons, List.sum_nil]
          omega
        · omega
      | cons j2 restJ2 =>
        simp only [List.map_cons]
        obtain ⟨⟨ext1, hext1, hextnil1⟩, hlen1, hrem1, hcap1⟩ :=
          firstJobStep_spec rb pool minB j1 ub (TOTAL_PAGE_LINES - ul)
        obtain ⟨⟨ext2, hext2, hextnil2⟩, hlen2, hrem2, hcap2⟩ :=
          secondJobStep_spec rb pool minB j2
            (firstJobStep rb pool minB j1 (trimJob rb pool minB j1).bullets ub
              (TOTAL_PAGE_LINES - ul)).2.1
            (firstJobStep rb pool minB j1 (trimJob rb pool minB j1).bullets ub
              (TOTAL_PAGE_LINES - ul)).2.2
            (TOTAL_PAGE_LINES - ul) hrem1
        refine ⟨List.Forall₂.cons ⟨⟨ext1, ?_, hextnil1⟩, ?_⟩
          (List.Forall₂.cons ⟨⟨ext2, ?_, hextnil2⟩, ?_⟩ (forall₂_trim rb pool minB restJ2)),
          ?_, ?_⟩
        · show ({ trimJob rb pool minB j1 with
            bullets := (firstJobStep rb pool minB j1 (trimJob rb pool minB j1).bullets ub
              (TOTAL_PAGE_LINES - ul)).1 } : Experience) = _
          rw [hext1, trimJob_bullets, trimJob_set_bullets]
        · exact hcap1
        · show ({ trimJob rb pool minB j2 with bullets := _ } : Experience) = _
          rw [hext2, trimJob_bullets, trimJob_set_bullets]
        · exact hcap2
        · simp only [List.map_cons, List.sum_cons]
          omega
        · omega
  · rw [if_neg hul]
    refine ⟨forall₂_trim rb pool minB jti, ?_, ?_⟩
    · dsimp only
      omega
    · dsimp only
      omega

/-- `fillPhase_spec` instantiated to a whole request. -/
theorem fillResult_spec (request : DynamicResumeRequest) :
    List.Forall₂
      (fillOutRel request.rankedContent.rankedBullets request.bulletPool (minBulletsVal request))
      (includedJobs request) (fillResult request).1
    ∧ ((fillResult request).1.map (fun e => e.bullets.length)).sum
      = ((preFillExperience request).map (fun e => e.bullets.length)).sum
        + (fillResult request).2.2
    ∧ preFillUsedLines request + (fillResult request).2.2
        ≤ max (preFillUsedLines request) TOTAL_PAGE_LINES :=
  fillPhase_spec request.rankedContent.rankedBullets request.bulletPool
    (minBulletsVal request) (includedJobs request) (preFillUsedBullets request)
    (preFillUsedLines request)

/-! ### Claim C1 -/

/-- C1 (counterexample): on a request with no experience entries and a single
40-bullet project, `buildOptimizedResume` reports `usedLines = 64`, exceeding
the total page budget of 62 even at the default `maxJobs`/`minBulletsPerJob`:
the selected project's bullets are added without any budget check. -/
theorem claim1_budget_counterexample :
    (buildOptimizedResume reqBigProject).pageSpaceUsed.usedLines = 64
    ∧ ¬ ((buildOptimizedResume reqBigProject).pageSpaceUsed.usedLines ≤ TOTAL_PAGE_LINES) := by
  constructor
  · rfl
  · decide

/-- C1 (amended): after `buildOptimizedResume`, `usedLines` never exceeds the
larger of the total page budget (62) and the pre-fill `usedLines` (fixed
overhead plus project cost plus experience-section and per-job minimum costs);
in particular the greedy fill phase itself never adds more than the remaining
budget.  The unamended bound `usedLines ≤ 62` fails when the selected project's
bullets already push the pre-fill total past 62. -/
theorem claim1_budget_amended (request : DynamicResumeRequest) :
    (buildOptimizedResume request).pageSpaceUsed.usedLines
      ≤ max TOTAL_PAGE_LINES (preFillUsedLines request) := by
  have h := (fillResult_spec request).2.2
  have he : (buildOptimizedResume request).pageSpaceUsed.usedLines
      = preFillUsedLines request + (fillResult request).2.2 := rfl
  omega

/-! ### Claims C3 and C4 -/

theorem length_getRankedBulletsForJob (job : Experience) (rb : List RankedBullet)
    (pool : List BulletPointPool) :
    (getRankedBulletsForJob job rb pool).length = (candidatesForJob job rb pool).length :=
  length_sortDescBy _ _

theorem forall₂_mem_right {R : α → β → Prop} {l1 : List α} {l2 : List β}
    (h : List.Forall₂ R l1 l2) : ∀ b ∈ l2, ∃ a ∈ l1, R a b := by
  induction h with
  | nil => intro b hb; cases hb
  | cons hR _ ih =>
    intro b hb
    rcases List.mem_cons.mp hb with rfl | hb2
    · exact ⟨_, List.mem_cons_self _ _, hR⟩
    · obtain ⟨a, ha, hab⟩ := ih b hb2
      exact ⟨a, List.mem_cons_of_mem _ ha, hab⟩

/-- C3: pairing each included job with the corresponding output entry: before
the fill phase every included job carries exactly `min minBulletsPerJob
candidates` bullets (so exactly `minBulletsPerJob` when enough candidates are
available); after the fill phase a job with at least `minBulletsPerJob`
candidates still has at least that many bullets, and a job with fewer
candidates carries exactly all of its available candidate bullets (its own
bullets plus matching pool bullets, in ranked order) with no padding; no
included job blocks the processing of the others. -/
theorem claim3_minimum_guarantee (request : DynamicResumeRequest) :
    List.Forall₂ (fun job pj => pj.bullets.length
        = min (minBulletsVal request)
            (candidatesForJob job request.rankedContent.rankedBullets request.bulletPool).length)
      (includedJobs request) (preFillExperience request)
    ∧ List.Forall₂ (fun job oj =>
        (minBulletsVal request
            ≤ (candidatesForJob job request.rankedContent.rankedBullets request.bulletPool).length
          → minBulletsVal request ≤ oj.bullets.length)
        ∧ ((candidatesForJob job request.rankedContent.rankedBullets request.bulletPool).length
            < minBulletsVal request
          → oj.bullets = (getRankedBulletsForJob job request.rankedContent.rankedBullets
              request.bulletPool).map (fun c => c.content)))
      (includedJobs request) ((buildOptimizedResume request).resumeData.experience) := by
  constructor
  · rw [preFillExperience, List.forall₂_map_right_iff, List.forall₂_same]
    intro job _
    rw [trimJob_length, length_getRankedBulletsForJob]
  · have h := (fillResult_spec request).1
    have hexp : (buildOptimizedResume request).resumeData.experience
        = (fillResult request).1 := rfl
    rw [hexp]
    refine h.imp ?_
    intro job oj hrel
    obtain ⟨⟨ext, hoj, hextnil⟩, _⟩ := hrel
    have hbul : oj.bullets
        = ((getRankedBulletsForJob job request.rankedContent.rankedBullets
            request.bulletPool).take (minBulletsVal request)).map (fun c => c.content)
          ++ ext := by rw [hoj]
    constructor
    · intro hge
      rw [hbul, List.length_append, List.length_map, List.length_take,
        length_getRankedBulletsForJob]
      omega
    · intro hlt
      have hle : (getRankedBulletsForJob job request.rankedContent.rankedBullets
          request.bulletPool).length ≤ minBulletsVal request := by
        rw [length_getRankedBulletsForJob]
        omega
      rw [hbul, hextnil hle, List.append_nil, List.take_of_length_le hle]

/-- C3 (witness): the theorem applied to a concrete two-job request. -/
theorem claim3_minimum_guarantee_witness :
    List.Forall₂ (fun job pj => pj.bullets.length
        = min (minBulletsVal reqTwoJobs)
            (candidatesForJob job reqTwoJobs.rankedContent.rankedBullets
              reqTwoJobs.bulletPool).length)
      (includedJobs reqTwoJobs) (preFillExperience reqTwoJobs)
    ∧ List.Forall₂ (fun job oj =>
        (minBulletsVal reqTwoJobs
            ≤ (candidatesForJob job reqTwoJobs.rankedContent.rankedBullets
                reqTwoJobs.bulletPool).length
          → minBulletsVal reqTwoJobs ≤ oj.bullets.length)
        ∧ ((candidatesForJob job reqTwoJobs.rankedContent.rankedBullets
              reqTwoJobs.bulletPool).length
            < minBulletsVal reqTwoJobs
          → oj.bullets = (getRankedBulletsForJob job reqTwoJobs.rankedContent.rankedBullets
              reqTwoJobs.bulletPool).map (fun c => c.content)))
      (includedJobs reqTwoJobs) ((buildOptimizedResume reqTwoJobs).resumeData.experience) :=
  claim3_minimum_guarantee reqTwoJobs

/-- C4 (counterexample): with `minBulletsPerJob = 7` and a job owning seven
bullets, the output entry has seven bullets: the per-job cap of 6 is only
enforced by the fill phase, not by the minimum-bullet phase. -/
theorem claim4_cap_counterexample :
    ((buildOptimizedResume reqMinSeven).resumeData.experience.map
      (fun e => e.bullets.length)) = [7]
    ∧ ¬ (7 ≤ MAX_BULLETS_PER_JOB) := by
  constructor
  · rfl
  · decide

/-- C4 (amended): every output experience entry of the Allocation Engine has at
most `max 6 minBulletsPerJob` bullets; in particular the per-job cap of 6 holds
whenever `minBulletsPerJob ≤ 6` (so in particular at the default of 3),
regardless of remaining budget or candidate availability. -/
theorem claim4_cap_amended (request : DynamicResumeRequest) :
    ∀ oj ∈ (buildOptimizedResume request).resumeData.experience,
      oj.bullets.length ≤ max MAX_BULLETS_PER_JOB (minBulletsVal request) := by
  intro oj hoj
  have h := (fillResult_spec request).1
  have hexp : (buildOptimizedResume request).resumeData.experience
      = (fillResult request).1 := rfl
  rw [hexp] at hoj
  obtain ⟨job, _, hrel⟩ := forall₂_mem_right h oj hoj
  have hcap := hrel.2
  omega

/-- C4 (witness): the amended cap evaluated on the first entry of a concrete
request's output. -/
theorem claim4_cap_amended_witness :
    ((buildOptimizedResume reqTwoJobs).resumeData.experience.headD
      (mkJob 0 [])).bullets.length
      ≤ max MAX_BULLETS_PER_JOB (minBulletsVal reqTwoJobs) :=
  claim4_cap_amended reqTwoJobs _ (by decide)

/-! ### Claim C5 -/

/-- C5 (counterexample): with no experience entries (and no projects),
`buildOptimizedResume` reports `usedLines = 21`, not the post-project-selection
value 20: the experience section header line is charged unconditionally, even
when there is no experience section at all. -/
theorem claim5_empty_experience_counterexample :
    (buildOptimizedResume reqEmpty).pageSpaceUsed.usedLines = 21
    ∧ (projectPhase reqEmpty).2 = 20
    ∧ (21 : Nat) ≠ 20 := by
  refine ⟨rfl, rfl, by decide⟩

/-- C5 (amended): if `originalResume.experience` is empty, job inclusion and
greedy fill are indeed skipped (no experience entries, no used bullets, zero
bullets added), but `usedLines` ends exactly `SECTION_HEADER_LINES` (one line)
above its post-project-selection value, because the experience section header
is charged before the job loop without checking that any job exists. -/
theorem claim5_empty_experience_amended (request : DynamicResumeRequest)
    (h : request.originalResume.experience = []) :
    (buildOptimizedResume request).pageSpaceUsed.usedLines
      = (projectPhase request).2 + SECTION_HEADER_LINES
    ∧ (buildOptimizedResume request).resumeData.experience = []
    ∧ (buildOptimizedResume request).usedBullets = []
    ∧ (buildOptimizedResume request).optimizationDetails.totalBulletsAdded = 0 := by
  have hinc : includedJobs request = [] := by
    rw [includedJobs, h, List.take_nil]
  have hpe : preFillExperience request = [] := by
    rw [preFillExperience, hinc, List.map_nil]
  have hub : preFillUsedBullets request = [] := by
    rw [preFillUsedBullets, hinc, List.map_nil, List.flatten_nil]
  have hul : preFillUsedLines request = (projectPhase request).2 + SECTION_HEADER_LINES := by
    rw [preFillUsedLines, hinc, List.length_nil]
    omega
  have hfr : fillResult request = ([], [], 0) := by
    rw [fillResult, hinc, hpe, hub]
    unfold fillPhase
    split
    · rfl
    · rfl
  refine ⟨?_, ?_, ?_, ?_⟩
  · show preFillUsedLines request + (fillResult request).2.2 = _
    rw [hfr, hul]
    rfl
  · show (fillResult request).1 = []
    rw [hfr]
  · show (fillResult request).2.1 = []
    rw [hfr]
  · show (fillResult request).2.1.length = 0
    rw [hfr, List.length_nil]

/-- C5 (witness): the amended statement evaluated on the empty request. -/
theorem claim5_empty_experience_witness :
    (buildOptimizedResume reqEmpty).pageSpaceUsed.usedLines
      = (projectPhase reqEmpty).2 + SECTION_HEADER_LINES
    ∧ (buildOptimizedResume reqEmpty).resumeData.experience = []
    ∧ (buildOptimizedResume reqEmpty).usedBullets = []
    ∧ (buildOptimizedResume reqEmpty).optimizationDetails.totalBulletsAdded = 0 :=
  claim5_empty_experience_amended reqEmpty rfl

/-! ### Claim C2 -/

theorem estimateUsedLines_eq (rd : ResumeData) :
    estimateUsedLines rd
      = STATIC_CONTENT_LINES + SKILLS_SECTION_LINES
        + (if 0 < rd.experience.length then
            SECTION_HEADER_LINES
              + ((rd.experience.map (fun e => JOB_HEADER_LINES + e.bullets.length)).sum)
          else 0)
        + (if 0 < rd.projects.length then
            SECTION_HEADER_LINES
              + ((rd.projects.map (fun p => PROJECT_HEADER_LINES + p.bullets.length)).sum)
          else 0) := by
  rw [estimateUsedLines]
  split <;> split <;> omega

theorem sum_map_add_const (c : Nat) (f : α → Nat) (l : List α) :
    (l.map (fun a => c + f a)).sum = c * l.length + (l.map f).sum := by
  induction l with
  | nil => simp
  | cons a t ih =>
    simp only [List.map_cons, List.sum_cons, ih, List.length_cons]
    ring

theorem sum_map_of_const {f : α → Nat} {c : Nat} {l : List α}
    (h : ∀ a ∈ l, f a = c) : (l.map f).sum = c * l.length := by
  induction l with
  | nil => simp
  | cons a t ih =>
    simp only [List.map_cons, List.sum_cons, List.length_cons]
    rw [h a (List.mem_cons_self a t), ih (fun x hx => h x (List.mem_cons_of_mem a hx))]
    ring

/-- C2 (counterexample): on the empty request the engine reports
`usedLines = 21` while the standalone estimator recomputes 20 on the output
document, so the reported accumulator does not agree with the estimator's
recomputation (nor with `fixedOverhead + Σ headers + Σ bullets`, which is 20). -/
theorem claim2_usage_agreement_counterexample :
    (buildOptimizedResume reqEmpty).pageSpaceUsed.usedLines = 21
    ∧ estimateUsedLines (buildOptimizedResume reqEmpty).resumeData = 20
    ∧ (21 : Nat) ≠ 20 := by
  refine ⟨rfl, rfl, by decide⟩

/-- C2 (amended): whenever the original resume has at least one experience entry
and every included job has at least `minBulletsPerJob` available candidate
bullets, the reported `usedLines` agrees exactly with the standalone estimator's
recomputation on the output document (and hence the remaining-space estimates
agree as well).  The agreement fails in general: the engine charges
`minBulletsPerJob` lines per job even when fewer bullets are available, and
charges the experience section header even when no experience exists. -/
theorem claim2_usage_agreement_amended (request : DynamicResumeRequest)
    (hne : request.originalResume.experience ≠ [])
    (hmin : ∀ job ∈ includedJobs request,
        minBulletsVal request
          ≤ (candidatesForJob job request.rankedContent.rankedBullets
              request.bulletPool).length) :
    estimateUsedLines (buildOptimizedResume request).resumeData
      = (buildOptimizedResume request).pageSpaceUsed.usedLines
    ∧ estimateRemainingSpace (buildOptimizedResume request).resumeData
      = max 0 ((buildOptimizedResume request).pageSpaceUsed.remainingLines) := by
  have hexp : (buildOptimizedResume request).resumeData.experience
      = (fillResult request).1 := rfl
  have hproj : (buildOptimizedResume request).resumeData.projects
      = (projectPhase request).1 := rfl
  have husedl : (buildOptimizedResume request).pageSpaceUsed.usedLines
      = preFillUsedLines request + (fillResult request).2.2 := rfl
  have hF := (fillResult_spec request).1
  have hlen1 : (fillResult request).1.length = (includedJobs request).length :=
    (List.Forall₂.length_eq hF).symm
  have hmax1 : 0 < maxJobsVal request := jsOrNat_pos _ _ (by omega)
  have hexpne : 0 < request.originalResume.experience.length := List.length_pos.mpr hne
  have hn : 0 < (includedJobs request).length := by
    rw [includedJobs, List.length_take]
    omega
  have hpre : ((preFillExperience request).map (fun e => e.bullets.length)).sum
      = minBulletsVal request * (includedJobs request).length := by
    rw [preFillExperience, List.map_map]
    apply sum_map_of_const
    intro job hjob
    show (trimJob request.rankedContent.rankedBullets request.bulletPool
      (minBulletsVal request) job).bullets.length = minBulletsVal request
    rw [trimJob_length, length_getRankedBulletsForJob]
    exact Nat.min_eq_left (hmin job hjob)
  have hsum2 : ((fillResult request).1.map
        (fun e => JOB_HEADER_LINES + e.bullets.length)).sum
      = JOB_HEADER_LINES * (includedJobs request).length
        + (minBulletsVal request * (includedJobs request).length
            + (fillResult request).2.2) := by
    rw [sum_map_add_const, hlen1, (fillResult_spec request).2.1, hpre]
  have hEq : estimateUsedLines (buildOptimizedResume request).resumeData
      = (buildOptimizedResume request).pageSpaceUsed.usedLines := by
    cases hsel : selectBestProject request.originalResume.projects request.rankedContent with
    | none =>
      have hpp : projectPhase request
          = ([], STATIC_CONTENT_LINES + SKILLS_SECTION_LINES) := by
        rw [projectPhase, hsel]
      rw [estimateUsedLines_eq, hexp, hproj, hpp]
      rw [if_pos (by rw [hlen1]; exact hn)]
      rw [if_neg (by simp)]
      rw [hsum2, husedl, preFillUsedLines, hpp]
      ring
    | some p =>
      have hpp : projectPhase request
          = ([p], STATIC_CONTENT_LINES + SKILLS_SECTION_LINES
              + PROJECT_HEADER_LINES + SECTION_HEADER_LINES + p.bullets.length) := by
        rw [projectPhase, hsel]
      rw [estimateUsedLines_eq, hexp, hproj, hpp]
      rw [if_pos (by rw [hlen1]; exact hn)]
      rw [if_pos (by simp)]
      rw [hsum2, husedl, preFillUsedLines, hpp]
      simp only [List.map_cons, List.map_nil, List.sum_cons, List.sum_nil]
      ring
  refine ⟨hEq, ?_⟩
  rw [estimateRemainingSpace, hEq]
  rfl

/-- C2 (witness): the amended agreement evaluated on a concrete two-job request
with enough candidate bullets: both sides report 33 used lines. -/
theorem claim2_usage_agreement_witness :
    estimateUsedLines (buildOptimizedResume reqTwoJobs).resumeData
      = (buildOptimizedResume reqTwoJobs).pageSpaceUsed.usedLines
    ∧ estimateRemainingSpace (buildOptimizedResume reqTwoJobs).resumeData
      = max 0 ((buildOptimizedResume reqTwoJobs).pageSpaceUsed.remainingLines) :=
  claim2_usage_agreement_amended reqTwoJobs (by decide) (by decide)

/-! ### Claim C8 -/

theorem skillScore_nil (skill : String) : skillScore [] skill = 0 := rfl

theorem reorderSkillsByRanking_nil (l : List String) :
    reorderSkillsByRanking l [] = l := by
  rw [reorderSkillsByRanking, sortDescBy_of_zero]
  · rw [List.map_map]
    exact List.map_id l
  · intro a ha
    obtain ⟨s, _, rfl⟩ := List.mem_map.mp ha
    rfl

theorem reorderSkillsByRanking_perm (l : List String) (rs : List RankedSkill) :
    (reorderSkillsByRanking l rs).Perm l := by
  rw [reorderSkillsByRanking]
  have h := (sortDescBy_perm (fun p : String × Int => p.2)
    (l.map (fun skill => (skill, skillScore rs skill)))).map (fun p => p.1)
  rw [List.map_map] at h
  have h2 : List.map ((fun p : String × Int => p.1)
      ∘ fun skill => (skill, skillScore rs skill)) l = l := List.map_id l
  rw [h2] at h
  exact h

/-- C8: for every skill category whose ranked-skill list is empty the category's
order is unchanged (all scores default to 0 and the stable sort is the
identity); the `softSkills` category is always passed through unchanged; and
every category's output is a permutation of that same category's input, so no
skill ever moves across categories. -/
theorem claim8_skill_reordering (s : Skills) (rc : RankedSkillCategories) :
    (rc.programmingLanguages = [] →
      (buildRankedSkills s rc).programmingLanguages = s.programmingLanguages)
    ∧ (rc.frameworks = [] →
      (buildRankedSkills s rc).frameworksAndLibraries = s.frameworksAndLibraries)
    ∧ (rc.tools = [] →
      (buildRankedSkills s rc).softwareAndTools = s.softwareAndTools)
    ∧ (rc.others = [] →
      (buildRankedSkills s rc).cloudAndDevOps = s.cloudAndDevOps
        ∧ (buildRankedSkills s rc).machineLearning = s.machineLearning)
    ∧ (buildRankedSkills s rc).softSkills = s.softSkills
    ∧ ((buildRankedSkills s rc).programmingLanguages).Perm s.programmingLanguages
    ∧ ((buildRankedSkills s rc).frameworksAndLibraries).Perm s.frameworksAndLibraries
    ∧ ((buildRankedSkills s rc).softwareAndTools).Perm s.softwareAndTools
    ∧ ((buildRankedSkills s rc).cloudAndDevOps).Perm s.cloudAndDevOps
    ∧ ((buildRankedSkills s rc).machineLearning).Perm s.machineLearning := by
  refine ⟨?_, ?_, ?_, ?_, rfl,
    reorderSkillsByRanking_perm _ _, reorderSkillsByRanking_perm _ _,
    reorderSkillsByRanking_perm _ _, reorderSkillsByRanking_perm _ _,
    reorderSkillsByRanking_perm _ _⟩
  · intro h
    show reorderSkillsByRanking s.programmingLanguages rc.programmingLanguages = _
    rw [h, reorderSkillsByRanking_nil]
  · intro h
    show reorderSkillsByRanking s.frameworksAndLibraries rc.frameworks = _
    rw [h, reorderSkillsByRanking_nil]
  · intro h
    show reorderSkillsByRanking s.softwareAndTools rc.tools = _
    rw [h, reorderSkillsByRanking_nil]
  · intro h
    refine ⟨?_, ?_⟩
    · show reorderSkillsByRanking s.cloudAndDevOps rc.others = _
      rw [h, reorderSkillsByRanking_nil]
    · show reorderSkillsByRanking s.machineLearning rc.others = _
      rw [h, reorderSkillsByRanking_nil]

/-- Fixture skills for the C8 witness. -/
def skillsFix : Skills :=
  ⟨["py", "go"], ["ml"], ["git"], ["aws"], ["react"], ["teamwork"]⟩

/-- C8 (witness): with all ranked-skill lists empty, every category comes out
unchanged. -/
theorem claim8_skill_reordering_witness :
    (buildRankedSkills skillsFix emptyRankedCats).programmingLanguages
        = skillsFix.programmingLanguages
    ∧ (buildRankedSkills skillsFix emptyRankedCats).frameworksAndLibraries
        = skillsFix.frameworksAndLibraries
    ∧ (buildRankedSkills skillsFix emptyRankedCats).softwareAndTools
        = skillsFix.softwareAndTools
    ∧ (buildRankedSkills skillsFix emptyRankedCats).cloudAndDevOps
        = skillsFix.cloudAndDevOps
    ∧ (buildRankedSkills skillsFix emptyRankedCats).machineLearning
        = skillsFix.machineLearning
    ∧ (buildRankedSkills skillsFix emptyRankedCats).softSkills
        = skillsFix.softSkills := by
  have h := claim8_skill_reordering skillsFix emptyRankedCats
  exact ⟨h.1 rfl, h.2.1 rfl, h.2.2.1 rfl, (h.2.2.2.1 rfl).1, (h.2.2.2.1 rfl).2,
    h.2.2.2.2.1⟩

/-! ### Claim C7 -/

theorem firstMaxBy_map_pair (score : α → Int) (l : List α) :
    (firstMaxBy (fun ps : α × Int => ps.2) (l.map (fun p => (p, score p)))).map
      (fun ps => ps.1)
      = firstMaxBy score l := by
  induction l with
  | nil => rfl
  | cons a l ih =>
    rw [List.map_cons, firstMaxBy, firstMaxBy]
    cases hm : firstMaxBy (fun ps : α × Int => ps.2) (l.map (fun p => (p, score p))) with
    | none =>
      rw [hm] at ih
      rw [← ih]
      rfl
    | some b =>
      obtain ⟨x, _, hx⟩ := List.mem_map.mp (firstMaxBy_mem hm)
      rw [hm] at ih
      rw [← ih]
      have hb2 : b.2 = score b.1 := by rw [← hx]
      have hmap : Option.map (fun ps : α × Int => ps.1) (some b) = some b.1 := rfl
      rw [hmap]
      dsimp only
      rw [hb2]
      by_cases hk : score b.1 ≤ score a
      · rw [if_pos hk, if_pos hk]
        rfl
      · rw [if_neg hk, if_neg hk]
        rfl

theorem selectBestProject_eq_firstMax (projects : List Project)
    (rc : EnhancedJobAnalysisResponse) :
    selectBestProject projects rc = firstMaxBy (projectMatchScore rc) projects := by
  rw [selectBestProject]
  by_cases hp : projects.length = 0
  · rw [if_pos hp, List.length_eq_zero.mp hp]
    rfl
  · rw [if_neg hp]
    dsimp only
    rw [head?_sortDescBy, firstMaxBy_map_pair]

/-- C7: `selectBestProject` returns exactly the first project attaining the
maximal technology-tag match count (stable tie-break, element of the input,
bullets untouched); with no projects the output has no project and no project
line cost is charged; the output never contains more than one project; and the
legacy optimizer keeps every project, trimming each to its first four bullets. -/
theorem claim7_project_selection (projects : List Project)
    (rc : EnhancedJobAnalysisResponse) (request : DynamicResumeRequest)
    (rd : ResumeData) (pool : List BulletPointPool) :
    (selectBestProject projects rc = firstMaxBy (projectMatchScore rc) projects)
    ∧ (∀ p, selectBestProject projects rc = some p →
        p ∈ projects ∧ ∀ q ∈ projects, projectMatchScore rc q ≤ projectMatchScore rc p)
    ∧ (projects ≠ [] → (selectBestProject projects rc).isSome)
    ∧ (request.originalResume.projects = [] →
        (buildOptimizedResume request).resumeData.projects = []
          ∧ (projectPhase request).2 = STATIC_CONTENT_LINES + SKILLS_SECTION_LINES)
    ∧ (∀ p, selectBestProject request.originalResume.projects request.rankedContent
          = some p →
        (buildOptimizedResume request).resumeData.projects = [p])
    ∧ (buildOptimizedResume request).resumeData.projects.length ≤ 1
    ∧ (optimizeBulletsForSinglePage rd pool).projects
        = rd.projects.map (fun p => { p with bullets := p.bullets.take 4 }) := by
  have hproj : (buildOptimizedResume request).resumeData.projects
      = (projectPhase request).1 := rfl
  refine ⟨selectBestProject_eq_firstMax projects rc, ?_, ?_, ?_, ?_, ?_, rfl⟩
  · intro p hp
    rw [selectBestProject_eq_firstMax] at hp
    exact ⟨firstMaxBy_mem hp, firstMaxBy_isMax hp⟩
  · intro hne
    rw [selectBestProject_eq_firstMax]
    cases projects with
    | nil => cases hne rfl
    | cons a t =>
      cases hm : firstMaxBy (projectMatchScore rc) (a :: t) with
      | none => exact absurd hm (firstMaxBy_cons_ne_none _ a t)
      | some b => rfl
  · intro hempty
    have hsel : selectBestProject request.originalResume.projects
        request.rankedContent = none := by
      rw [hempty]
      rfl
    have hpp : projectPhase request
        = ([], STATIC_CONTENT_LINES + SKILLS_SECTION_LINES) := by
      rw [projectPhase, hsel]
    exact ⟨by rw [hproj, hpp], by rw [hpp]⟩
  · intro p hsel
    have hpp : (projectPhase request).1 = [p] := by
      rw [projectPhase, hsel]
    rw [hproj, hpp]
  · rw [hproj, projectPhase]
    cases hsel : selectBestProject request.originalResume.projects
        request.rankedContent with
    | none => simp
    | some p => simp

/-- Fixture project for the C7 witness. -/
def projFix : Project := ⟨3, "demo", "react, aws", ["p1", "p2"]⟩

/-- C7 (witness): the theorem applied at concrete inputs: the refinement
equality on a one-project list, the selected project appearing verbatim in the
output, at most one project in the output, and the legacy trim on a concrete
document. -/
theorem claim7_project_selection_witness :
    (selectBestProject [projFix] emptyRanked
        = firstMaxBy (projectMatchScore emptyRanked) [projFix])
    ∧ (buildOptimizedResume reqBigProject).resumeData.projects
        = [mkProject 1 (List.replicate 40 "b")]
    ∧ (buildOptimizedResume reqBigProject).resumeData.projects.length ≤ 1
    ∧ (optimizeBulletsForSinglePage rdFiveJobs []).projects
        = rdFiveJobs.projects.map (fun p => { p with bullets := p.bullets.take 4 }) := by
  have h := claim7_project_selection [projFix] emptyRanked reqBigProject rdFiveJobs []
  exact ⟨h.1, h.2.2.2.2.1 _ (by decide), h.2.2.2.2.2.1, h.2.2.2.2.2.2⟩

/-! ### Claim C6 -/

theorem bulletScoreOf_none {rb : List RankedBullet} {bid : String} {d : Int}
    (h : rb.find? (fun r => r.bulletId == bid) = none) :
    bulletScoreOf rb bid d = d := by
  rw [bulletScoreOf, h]
  rfl

theorem nativeCands_mem_default (job : Experience) (rb : List RankedBullet) :
    ∀ (bs : List String) (start i : Nat), i < bs.length →
      Cand.mk (natBulletId job (start + i)) (bs.getD i "")
          (bulletScoreOf rb (natBulletId job (start + i)) 50)
        ∈ nativeCands job rb start bs := by
  intro bs
  induction bs with
  | nil =>
    intro start i hi
    cases hi
  | cons b t ih =>
    intro start i hi
    cases i with
    | zero =>
      rw [nativeCands]
      simp only [Nat.add_zero, List.getD_cons_zero]
      exact List.mem_cons_self _ _
    | succ n =>
      rw [nativeCands]
      apply List.mem_cons_of_mem
      have harith : start + (n + 1) = (start + 1) + n := by omega
      rw [harith, List.getD_cons_succ]
      exact ih (start + 1) n (by simpa using hi)

theorem find?_append_middle {α : Type _} {p : α → Bool} {e : α}
    (he : p e = false) (l1 l2 : List α) :
    List.find? p (l1 ++ e :: l2) = List.find? p (l1 ++ l2) := by
  induction l1 with
  | nil =>
    simp only [List.nil_append]
    rw [List.find?_cons_of_neg _ (by simp [he])]
  | cons a t ih =>
    by_cases ha : p a = true
    · rw [List.cons_append, List.find?_cons_of_pos _ ha,
        List.cons_append, List.find?_cons_of_pos _ ha]
    · rw [List.cons_append, List.find?_cons_of_neg _ (by simpa using ha),
        List.cons_append, List.find?_cons_of_neg _ (by simpa using ha)]
      exact ih

theorem bulletScoreOf_middle (l1 l2 : List RankedBullet) (e : RankedBullet)
    (bid : String) (d : Int) (h : ¬ (e.bulletId = bid)) :
    bulletScoreOf (l1 ++ e :: l2) bid d = bulletScoreOf (l1 ++ l2) bid d := by
  rw [bulletScoreOf, bulletScoreOf, find?_append_middle (by simp [h])]

theorem nativeCands_middle (job : Experience) (l1 l2 : List RankedBullet)
    (e : RankedBullet) :
    ∀ (bs : List String) (start : Nat),
      (∀ c ∈ nativeCands job (l1 ++ l2) start bs, c.bulletId ≠ e.bulletId) →
      nativeCands job (l1 ++ e :: l2) start bs
        = nativeCands job (l1 ++ l2) start bs := by
  intro bs
  induction bs with
  | nil =>
    intro start _
    rfl
  | cons b t ih =>
    intro start h
    have hid : natBulletId job start ≠ e.bulletId := by
      have := h ⟨natBulletId job start, b,
        bulletScoreOf (l1 ++ l2) (natBulletId job start) 50⟩
        (by rw [nativeCands]; exact List.mem_cons_self _ _)
      exact this
    rw [nativeCands, nativeCands,
      bulletScoreOf_middle l1 l2 e _ 50 (Ne.symm hid),
      ih (start + 1) (fun c hc => h c (by rw [nativeCands]; exact List.mem_cons_of_mem _ hc))]

theorem poolCands_middle (job : Experience) (l1 l2 : List RankedBullet)
    (e : RankedBullet) (pool : List BulletPointPool)
    (h : ∀ c ∈ poolCands job (l1 ++ l2) pool, c.bulletId ≠ e.bulletId) :
    poolCands job (l1 ++ e :: l2) pool = poolCands job (l1 ++ l2) pool := by
  rw [poolCands, poolCands]
  apply List.map_congr_left
  intro bp hbp
  have hc : Cand.mk bp.id bp.content (bulletScoreOf (l1 ++ l2) bp.id 30)
      ∈ poolCands job (l1 ++ l2) pool := by
    rw [poolCands]
    exact List.mem_map_of_mem _ hbp
  have hid := h _ hc
  show Cand.mk bp.id bp.content (bulletScoreOf (l1 ++ e :: l2) bp.id 30)
    = Cand.mk bp.id bp.content (bulletScoreOf (l1 ++ l2) bp.id 30)
  rw [bulletScoreOf_middle l1 l2 e bp.id 30 (Ne.symm hid)]

/-- C6: every candidate bullet whose id is absent from the oracle's
`rankedBullets` gets the default relevance score — 50 for a job's own bullet
(synthetic id `jobId-index`), 30 for a matching pool bullet — and never zero or
exclusion; and a `rankedBullets` entry whose `bulletId` matches no candidate of
the job is ignored silently: inserting it anywhere leaves
`getRankedBulletsForJob` unchanged, so allocation completes normally. -/
theorem claim6_default_scores_and_unknown_ids (job : Experience)
    (rb l1 l2 : List RankedBullet) (e : RankedBullet)
    (pool : List BulletPointPool) :
    (∀ i, i < job.bullets.length →
        rb.find? (fun r => r.bulletId == natBulletId job i) = none →
        Cand.mk (natBulletId job i) (job.bullets.getD i "") 50
          ∈ getRankedBulletsForJob job rb pool)
    ∧ (∀ bp ∈ pool, bp.experienceId = some (toString job.id) →
        rb.find? (fun r => r.bulletId == bp.id) = none →
        Cand.mk bp.id bp.content 30 ∈ getRankedBulletsForJob job rb pool)
    ∧ ((∀ c ∈ candidatesForJob job (l1 ++ l2) pool, c.bulletId ≠ e.bulletId) →
        getRankedBulletsForJob job (l1 ++ e :: l2) pool
          = getRankedBulletsForJob job (l1 ++ l2) pool) := by
  refine ⟨?_, ?_, ?_⟩
  · intro i hi hfind
    rw [getRankedBulletsForJob,
      (sortDescBy_perm (fun c : Cand => c.relevanceScore) _).mem_iff]
    apply List.mem_append_left
    have hmem := nativeCands_mem_default job rb job.bullets 0 i hi
    rw [Nat.zero_add] at hmem
    have hs : bulletScoreOf rb (natBulletId job i) 50 = 50 := bulletScoreOf_none hfind
    rw [← hs]
    exact hmem
  · intro bp hbp hexp hfind
    rw [getRankedBulletsForJob,
      (sortDescBy_perm (fun c : Cand => c.relevanceScore) _).mem_iff]
    apply List.mem_append_right
    rw [poolCands]
    have hs : bulletScoreOf rb bp.id 30 = 30 := bulletScoreOf_none hfind
    have hmem : Cand.mk bp.id bp.content (bulletScoreOf rb bp.id 30)
        ∈ (pool.filter (fun b => b.experienceId == some (toString job.id))).map
          (fun b => Cand.mk b.id b.content (bulletScoreOf rb b.id 30)) := by
      apply List.mem_map_of_mem
      rw [List.mem_filter]
      exact ⟨hbp, by rw [hexp]; simp⟩
    have hcand : Cand.mk bp.id bp.content 30
        = Cand.mk bp.id bp.content (bulletScoreOf rb bp.id 30) := by rw [hs]
    rw [hcand]
    exact hmem
  · intro h
    rw [getRankedBulletsForJob, getRankedBulletsForJob]
    congr 1
    rw [candidatesForJob, candidatesForJob,
      nativeCands_middle job l1 l2 e job.bullets 0
        (fun c hc => h c (by rw [candidatesForJob]; exact List.mem_append_left _ hc)),
      poolCands_middle job l1 l2 e pool
        (fun c hc => h c (by rw [candidatesForJob]; exact List.mem_append_right _ hc))]

/-- Fixture pool bullet and ghost ranking entry for the C6 witness. -/
def bpFix : BulletPointPool := ⟨"p1", "technical", "pc", [], none, none, some "1"⟩

def ghostRB : RankedBullet := ⟨"ghost-1", 99, "not in the catalog"⟩

def jobFix : Experience := mkJob 1 ["b0"]

/-- C6 (witness): on a one-bullet job with one matching pool bullet and no
rankings, the native bullet appears with score 50 and the pool bullet with 30;
inserting a ranking entry for the unknown id `ghost-1` changes nothing. -/
theorem claim6_default_scores_witness :
    Cand.mk (natBulletId jobFix 0) (jobFix.bullets.getD 0 "") 50
      ∈ getRankedBulletsForJob jobFix [] [bpFix]
    ∧ Cand.mk bpFix.id bpFix.content 30 ∈ getRankedBulletsForJob jobFix [] [bpFix]
    ∧ getRankedBulletsForJob jobFix ([] ++ ghostRB :: []) [bpFix]
        = getRankedBulletsForJob jobFix ([] ++ []) [bpFix] := by
  have h := claim6_default_scores_and_unknown_ids jobFix [] [] [] ghostRB [bpFix]
  exact ⟨h.1 0 (by decide) rfl,
    h.2.1 bpFix (List.mem_singleton.mpr rfl) rfl rfl,
    h.2.2 (by decide)⟩

/-! ### Claim C10 -/

theorem find?_filter_self_none (p : α → Bool) (l : List α) :
    List.find? p (l.filter (fun a => ! p a)) = none := by
  rw [List.find?_eq_none]
  intro a ha
  have h2 := (List.mem_filter.mp ha).2
  simp only [Bool.not_eq_true'] at h2
  simp [h2]

theorem find?_filter_other {p q : α → Bool} (l : List α)
    (h : ∀ a, p a = true → q a = true) :
    List.find? p (l.filter q) = List.find? p l := by
  induction l with
  | nil => rfl
  | cons a t ih =>
    by_cases hq : q a = true
    · rw [List.filter_cons_of_pos hq]
      by_cases hp : p a = true
      · rw [List.find?_cons_of_pos _ hp, List.find?_cons_of_pos _ hp]
      · rw [List.find?_cons_of_neg _ (by simpa using hp),
          List.find?_cons_of_neg _ (by simpa using hp)]
        exact ih
    · have hp : ¬ p a = true := fun hpa => hq (h a hpa)
      rw [List.filter_cons_of_neg (by simpa using hq),
        List.find?_cons_of_neg _ (by simpa using hp)]
      exact ih

theorem bulletScoreOf_filter_ne (rb : List RankedBullet) (x bid : String)
    (d : Int) (hne : bid ≠ x) :
    bulletScoreOf (rb.filter (fun r => ! (r.bulletId == x))) bid d
      = bulletScoreOf rb bid d := by
  rw [bulletScoreOf, bulletScoreOf, find?_filter_other]
  intro r hr
  have : r.bulletId = bid := by simpa using hr
  simp [this, hne]

theorem bulletScoreOf_zero_first (rb : List RankedBullet) (x : String) (d : Int)
    (e : RankedBullet) (hfind : rb.find? (fun r => r.bulletId == x) = some e)
    (hzero : e.relevanceScore = 0) :
    bulletScoreOf rb x d = d := by
  rw [bulletScoreOf, hfind]
  show jsOrInt (some e.relevanceScore) d = d
  rw [hzero]
  rfl

theorem bulletScoreOf_of_eq (rb : List RankedBullet) (x bid : String) (d : Int)
    (e : RankedBullet) (heq : bid = x)
    (hfind : rb.find? (fun r => r.bulletId == x) = some e)
    (hzero : e.relevanceScore = 0) :
    bulletScoreOf (rb.filter (fun r => ! (r.bulletId == x))) bid d
      = bulletScoreOf rb bid d := by
  subst heq
  rw [bulletScoreOf_zero_first rb bid d e hfind hzero, bulletScoreOf,
    find?_filter_self_none]
  rfl

theorem bulletScoreOf_zero_invariant (rb : List RankedBullet) (x bid : String)
    (d : Int) (e : RankedBullet)
    (hfind : rb.find? (fun r => r.bulletId == x) = some e)
    (hzero : e.relevanceScore = 0) :
    bulletScoreOf (rb.filter (fun r => ! (r.bulletId == x))) bid d
      = bulletScoreOf rb bid d := by
  by_cases heq : bid = x
  · exact bulletScoreOf_of_eq rb x bid d e heq hfind hzero
  · exact bulletScoreOf_filter_ne rb x bid d heq

/-- C10: a candidate bullet whose first matching oracle entry carries an
explicit `relevanceScore` of 0 is ranked exactly as if the oracle had never
scored it: removing every ranking entry for that id leaves
`getRankedBulletsForJob` unchanged, because `|| 50` / `|| 30` treats the score
0 as falsy and substitutes the same default either way. -/
theorem claim10_zero_score_default (job : Experience)
    (pool : List BulletPointPool) (rb : List RankedBullet) (x : String)
    (e : RankedBullet) (hfind : rb.find? (fun r => r.bulletId == x) = some e)
    (hzero : e.relevanceScore = 0) :
    getRankedBulletsForJob job (rb.filter (fun r => ! (r.bulletId == x))) pool
      = getRankedBulletsForJob job rb pool := by
  rw [getRankedBulletsForJob, getRankedBulletsForJob]
  congr 1
  rw [candidatesForJob, candidatesForJob]
  have hnat : ∀ (bs : List String) (start : Nat),
      nativeCands job (rb.filter (fun r => ! (r.bulletId == x))) start bs
        = nativeCands job rb start bs := by
    intro bs
    induction bs with
    | nil => intro start; rfl
    | cons b t ih =>
      intro start
      rw [nativeCands, nativeCands,
        bulletScoreOf_zero_invariant rb x _ 50 e hfind hzero, ih (start + 1)]
  have hpool : poolCands job (rb.filter (fun r => ! (r.bulletId == x))) pool
      = poolCands job rb pool := by
    rw [poolCands, poolCands]
    apply List.map_congr_left
    intro bp _
    show Cand.mk bp.id bp.content _ = Cand.mk bp.id bp.content _
    rw [bulletScoreOf_zero_invariant rb x _ 30 e hfind hzero]
  rw [hnat, hpool]

/-- C10 (witness): a single-bullet job whose only ranking entry scores its
bullet 0 is ranked exactly as with no rankings at all. -/
theorem claim10_zero_score_default_witness :
    getRankedBulletsForJob jobFix
        ([RankedBullet.mk (natBulletId jobFix 0) 0 "r"].filter
          (fun r => ! (r.bulletId == natBulletId jobFix 0))) []
      = getRankedBulletsForJob jobFix [RankedBullet.mk (natBulletId jobFix 0) 0 "r"] [] :=
  claim10_zero_score_default jobFix [] [RankedBullet.mk (natBulletId jobFix 0) 0 "r"]
    (natBulletId jobFix 0) (RankedBullet.mk (natBulletId jobFix 0) 0 "r") (by decide) rfl

/-! ### Claim C9 -/

/-- Total bullet count assigned by an allocation list. -/
def sumBC (l : List BulletAllocation) : Int :=
  (l.map (fun j => j.bulletCount)).sum

theorem le_fst_of_mem_enumFrom :
    ∀ (l : List α) (n : Nat) (p : Nat × α), p ∈ List.enumFrom n l → n ≤ p.1 := by
  intro l
  induction l with
  | nil =>
    intro n p hp
    cases hp
  | cons a t ih =>
    intro n p hp
    rw [List.enumFrom] at hp
    rcases List.mem_cons.mp hp with rfl | hp2
    · exact le_refl _
    · exact le_trans (Nat.le_succ n) (ih (n + 1) p hp2)

theorem pairwise_fst_lt_enumFrom :
    ∀ (l : List α) (n : Nat),
      List.Pairwise (fun p q => p.1 < q.1) (List.enumFrom n l) := by
  intro l
  induction l with
  | nil =>
    intro n
    exact List.Pairwise.nil
  | cons a t ih =>
    intro n
    rw [List.enumFrom]
    refine List.Pairwise.cons ?_ (ih (n + 1))
    intro q hq
    exact lt_of_lt_of_le (Nat.lt_succ_self n) (le_fst_of_mem_enumFrom t (n + 1) q hq)

theorem snd_mem_of_mem_enumFrom :
    ∀ (l : List α) (n : Nat) (p : Nat × α), p ∈ List.enumFrom n l → p.2 ∈ l := by
  intro l
  induction l with
  | nil =>
    intro n p hp
    cases hp
  | cons a t ih =>
    intro n p hp
    rw [List.enumFrom] at hp
    rcases List.mem_cons.mp hp with rfl | hp2
    · exact List.mem_cons_self _ _
    · exact List.mem_cons_of_mem _ (ih (n + 1) p hp2)

theorem forall₂_enumFrom_map {R : α → β → Prop} (f : Nat × α → β)
    (hf : ∀ i a, R a (f (i, a))) :
    ∀ (l : List α) (n : Nat), List.Forall₂ R l ((List.enumFrom n l).map f) := by
  intro l
  induction l with
  | nil =>
    intro n
    exact List.Forall₂.nil
  | cons a t ih =>
    intro n
    rw [List.enumFrom, List.map_cons]
    exact List.Forall₂.cons (hf n a) (ih (n + 1))

theorem forall₂_trans {R : α → β → Prop} {S : β → γ → Prop} {T : α → γ → Prop}
    (h : ∀ a b c, R a b → S b c → T a c) :
    ∀ {l1 : List α} {l2 : List β} {l3 : List γ},
      List.Forall₂ R l1 l2 → List.Forall₂ S l2 l3 → List.Forall₂ T l1 l3 := by
  intro l1 l2 l3 h12
  induction h12 generalizing l3 with
  | nil =>
    intro h23
    cases h23
    exact List.Forall₂.nil
  | cons hR hF ih =>
    intro h23
    cases h23 with
    | cons hS hF2 => exact List.Forall₂.cons (h _ _ _ hR hS) (ih hF2)

theorem bulletCount_set (j : BulletAllocation) (x : Int) :
    ({ j with bulletCount := x } : BulletAllocation).bulletCount = x := rfl

theorem distributeExtra_spec :
    ∀ (jobs : List BulletAllocation) (rem : Int), 0 ≤ rem →
      (∀ j ∈ jobs, j.bulletCount ≤ j.availableBullets) →
      List.Forall₂ (fun j o => o.experienceId = j.experienceId
          ∧ j.bulletCount ≤ o.bulletCount) jobs (distributeExtra jobs rem)
      ∧ sumBC (distributeExtra jobs rem) ≤ sumBC jobs + rem := by
  intro jobs
  induction jobs with
  | nil =>
    intro rem hrem _
    refine ⟨List.Forall₂.nil, ?_⟩
    rw [distributeExtra]
    simp only [sumBC, List.map_nil, List.sum_nil]
    omega
  | cons j rest ih =>
    intro rem hrem hava
    have hj : j.bulletCount ≤ j.availableBullets := hava j (List.mem_cons_self _ _)
    have hrest : ∀ x ∈ rest, x.bulletCount ≤ x.availableBullets :=
      fun x hx => hava x (List.mem_cons_of_mem _ hx)
    rw [distributeExtra]
    by_cases hpos : rem > 0
    · rw [if_pos hpos]
      have hadd_le : min (min rem (j.availableBullets - j.bulletCount)) 3 ≤ rem := by
        omega
      have hadd_nonneg : 0 ≤ min (min rem (j.availableBullets - j.bulletCount)) 3 := by
        omega
      obtain ⟨hF, hsum⟩ := ih (rem - min (min rem (j.availableBullets - j.bulletCount)) 3)
        (by omega) hrest
      have hstep : j.bulletCount
          ≤ (BulletAllocation.mk j.experienceId
              (j.bulletCount + min (min rem (j.availableBullets - j.bulletCount)) 3)
              j.priority j.availableBullets).bulletCount := by
        show j.bulletCount
          ≤ j.bulletCount + min (min rem (j.availableBullets - j.bulletCount)) 3
        omega
      refine ⟨List.Forall₂.cons ⟨rfl, hstep⟩ hF, ?_⟩
      simp only [sumBC, List.map_cons, List.sum_cons, bulletCount_set] at hsum ⊢
      omega
    · rw [if_neg hpos]
      obtain ⟨hF, hsum⟩ := ih rem hrem hrest
      refine ⟨List.Forall₂.cons ⟨rfl, le_refl _⟩ hF, ?_⟩
      simp only [sumBC, List.map_cons, List.sum_cons] at hsum ⊢
      omega

theorem calculateOptimalAllocation_spec (exps : List Experience)
    (maxTotal minPer : Nat)
    (hmin : ∀ e ∈ exps, minPer ≤ e.bullets.length) :
    List.Forall₂ (fun e a => a.experienceId = e.id ∧ (minPer : Int) ≤ a.bulletCount)
      exps (calculateOptimalAllocation exps maxTotal minPer)
    ∧ sumBC (calculateOptimalAllocation exps maxTotal minPer)
        ≤ (minPer : Int) * exps.length
          + max 0 ((maxTotal : Int) - (exps.length * minPer : Nat)) := by
  rw [calculateOptimalAllocation]
  have hsorted : sortDescBy (fun j => j.priority)
      (exps.enum.map (mkPrioritizedJob minPer exps.length))
      = exps.enum.map (mkPrioritizedJob minPer exps.length) := by
    apply sortDescBy_eq_self
    rw [List.pairwise_map]
    refine (pairwise_fst_lt_enumFrom exps 0).imp ?_
    intro p q hpq
    show (mkPrioritizedJob minPer exps.length q).priority
      ≤ (mkPrioritizedJob minPer exps.length p).priority
    rw [mkPrioritizedJob, mkPrioritizedJob]
    dsimp only
    omega
  rw [hsorted]
  have hF0 : List.Forall₂ (fun e (a : BulletAllocation) => a.experienceId = e.id
      ∧ a.bulletCount = (minPer : Int)
      ∧ a.availableBullets = (e.bullets.length : Int))
      exps (exps.enum.map (mkPrioritizedJob minPer exps.length)) :=
    forall₂_enumFrom_map _ (fun i a => ⟨rfl, rfl, rfl⟩) exps 0
  have hava : ∀ j ∈ exps.enum.map (mkPrioritizedJob minPer exps.length),
      j.bulletCount ≤ j.availableBullets := by
    intro j hj
    obtain ⟨p, hp, rfl⟩ := List.mem_map.mp hj
    have := hmin p.2 (snd_mem_of_mem_enumFrom exps 0 p hp)
    show (minPer : Int) ≤ (p.2.bullets.length : Int)
    omega
  obtain ⟨hF, hsum⟩ := distributeExtra_spec _
    (max 0 ((maxTotal : Int) - (exps.length * minPer : Nat))) (le_max_left _ _) hava
  refine ⟨forall₂_trans ?_ hF0 hF, ?_⟩
  · intro e b c hR hS
    exact ⟨hS.1.trans hR.1, hR.2.1 ▸ hS.2⟩
  · have hsum0 : sumBC (exps.enum.map (mkPrioritizedJob minPer exps.length))
        = (minPer : Int) * exps.length := by
      rw [sumBC, List.map_map]
      have hconst : ∀ x ∈ exps.enum.map ((fun (j : BulletAllocation) => j.bulletCount)
          ∘ mkPrioritizedJob minPer exps.length), x = (minPer : Int) := by
        intro x hx
        obtain ⟨p, _, rfl⟩ := List.mem_map.mp hx
        rfl
      rw [List.sum_eq_card_nsmul _ _ hconst]
      simp only [List.length_map, List.enum_length, nsmul_eq_mul]
      ring
    rw [hsum0] at hsum
    exact hsum

theorem natCast_sum_map_length (l : List Experience) :
    ((((l.map (fun e => e.bullets.length)).sum : Nat)) : Int)
      = (l.map (fun e => (e.bullets.length : Int))).sum := by
  induction l with
  | nil => rfl
  | cons a t ih =>
    simp only [List.map_cons, List.sum_cons]
    push_cast
    rw [← ih]
    push_cast
    ring

theorem selectBestBullets_len (exp : Experience) (pool : List BulletPointPool)
    (t : Nat) :
    (selectBestBullets exp pool t).bullets.length ≤ t
    ∧ min t exp.bullets.length ≤ (selectBestBullets exp pool t).bullets.length := by
  have h : (selectBestBullets exp pool t).bullets.length
      = min t (exp.bullets.length
          + ((sortDescBy impactScore (pool.filter
              (fun b => b.experienceId == some (toString exp.id)))).map
            (fun b => b.content)).length) := by
    show (List.take t (exp.bullets ++ _)).length = _
    rw [List.length_take, List.length_append]
  constructor <;> omega

theorem legacyTarget_cons_ne (a : BulletAllocation) (arest : List BulletAllocation)
    (m : Int) (exp : Experience) (hne : ¬ (a.experienceId = exp.id)) :
    legacyTarget (a :: arest) m exp = legacyTarget arest m exp := by
  rw [legacyTarget, legacyTarget, List.find?_cons_of_neg]
  simp [hne]

theorem legacyTarget_cons_eq (a : BulletAllocation) (arest : List BulletAllocation)
    (m : Int) (exp : Experience) (heq : a.experienceId = exp.id)
    (hnz : ¬ (a.bulletCount = 0)) :
    legacyTarget (a :: arest) m exp = a.bulletCount := by
  rw [legacyTarget, List.find?_cons_of_pos _ (by simp [heq])]
  show (if a.bulletCount = 0 then m else a.bulletCount) = a.bulletCount
  rw [if_neg hnz]

theorem legacy_map_bound (pool : List BulletPointPool) :
    ∀ (exps : List Experience) (allocs : List BulletAllocation),
      List.Forall₂ (fun e a => a.experienceId = e.id ∧ (4 : Int) ≤ a.bulletCount)
        exps allocs →
      (exps.map (fun e => e.id)).Nodup →
      (∀ e ∈ exps, 4 ≤ e.bullets.length) →
      (((exps.map (fun exp => selectBestBullets exp pool
            (legacyTarget allocs 4 exp).toNat)).map
          (fun e => e.bullets.length)).sum : Int) ≤ sumBC allocs
      ∧ ∀ o ∈ exps.map (fun exp => selectBestBullets exp pool
            (legacyTarget allocs 4 exp).toNat),
          4 ≤ o.bullets.length := by
  intro exps
  induction exps with
  | nil =>
    intro allocs hF _ _
    cases hF
    exact ⟨by simp [sumBC], by simp⟩
  | cons e rest ih =>
    intro allocs hF hnd hmin
    cases hF with
    | cons hR hFrest =>
      rename_i a arest
      obtain ⟨ha1, ha4⟩ := hR
      have hnd' := List.nodup_cons.mp hnd
      have htgt : legacyTarget (a :: arest) 4 e = a.bulletCount :=
        legacyTarget_cons_eq a arest 4 e ha1 (by omega)
      have hredir : rest.map (fun exp => selectBestBullets exp pool
            (legacyTarget (a :: arest) 4 exp).toNat)
          = rest.map (fun exp => selectBestBullets exp pool
            (legacyTarget arest 4 exp).toNat) := by
        apply List.map_congr_left
        intro e2 he2
        have hne : ¬ (a.experienceId = e2.id) := by
          rw [ha1]
          intro hcontra
          apply hnd'.1
          show e.id ∈ List.map (fun x => x.id) rest
          rw [hcontra]
          exact List.mem_map_of_mem (fun x => x.id) he2
        rw [legacyTarget_cons_ne a arest 4 e2 hne]
      obtain ⟨hsum, hmin4⟩ := ih arest hFrest hnd'.2
        (fun x hx => hmin x (List.mem_cons_of_mem _ hx))
      have hlen := selectBestBullets_len e pool (legacyTarget (a :: arest) 4 e).toNat
      have hemin : 4 ≤ e.bullets.length := hmin e (List.mem_cons_self _ _)
      have hbc : ((legacyTarget (a :: arest) 4 e).toNat : Int) = a.bulletCount := by
        rw [htgt]
        exact Int.toNat_of_nonneg (by omega)
      constructor
      · simp only [List.map_cons, List.sum_cons, hredir]
        simp only [sumBC, List.map_cons, List.sum_cons] at hsum ⊢
        omega
      · intro o ho
        rw [List.map_cons] at ho
        rcases List.mem_cons.mp ho with rfl | h2
        · have ht4 : 4 ≤ (legacyTarget (a :: arest) 4 e).toNat := by omega
          have := hlen.2
          omega
        · rw [hredir] at h2
          exact hmin4 o h2

/-- C9 (counterexample): five jobs with four original bullets each make the
legacy optimizer emit `5 * 4 = 20` bullets — above its declared shared ceiling
of 18, because the per-job minimum of 4 is applied unconditionally. -/
theorem claim9_ceiling_counterexample :
    totalExperienceBullets (optimizeBulletsForSinglePage rdFiveJobs []) = 20
    ∧ ¬ (totalExperienceBullets (optimizeBulletsForSinglePage rdFiveJobs []) ≤ 18) := by
  exact ⟨rfl, by decide⟩

/-- C9 (amended): the legacy optimizer assigns every job a minimum of 4 bullets
and distributes the extras most-recent-first capped at 3 per job; the
total-bullet ceiling of 18 holds provided there are at most four experience
entries, each entry has at least four original bullets, and the experience ids
are pairwise distinct — and then every output job also keeps at least 4
bullets.  With five or more jobs the per-job minimum alone already exceeds 18,
so the unamended "never exceeds 18" is false. -/
theorem claim9_allocation_amended (rd : ResumeData) (pool : List BulletPointPool)
    (hcount : rd.experience.length ≤ 4)
    (hmin : ∀ e ∈ rd.experience, 4 ≤ e.bullets.length)
    (hnodup : (rd.experience.map (fun e => e.id)).Nodup) :
    totalExperienceBullets (optimizeBulletsForSinglePage rd pool) ≤ 18
    ∧ ∀ e ∈ (optimizeBulletsForSinglePage rd pool).experience,
        4 ≤ e.bullets.length := by
  obtain ⟨hF, hsum⟩ := calculateOptimalAllocation_spec rd.experience 18 4 hmin
  obtain ⟨htot, hm4⟩ := legacy_map_bound pool rd.experience
    (calculateOptimalAllocation rd.experience 18 4) hF hnodup hmin
  have hexp : (optimizeBulletsForSinglePage rd pool).experience
      = rd.experience.map (fun exp => selectBestBullets exp pool
          (legacyTarget (calculateOptimalAllocation rd.experience 18 4) 4 exp).toNat) := rfl
  constructor
  · rw [totalExperienceBullets, hexp]
    have hle : ((((rd.experience.map (fun exp => selectBestBullets exp pool
        (legacyTarget (calculateOptimalAllocation rd.experience 18 4) 4 exp).toNat)).map
          (fun e => e.bullets.length)).sum : Nat) : Int) ≤ ((18 : Nat) : Int) := by
      rw [natCast_sum_map_length]
      refine le_trans htot (le_trans hsum ?_)
      push_cast
      omega
    exact Nat.cast_le.mp hle
  · rw [hexp]
    exact hm4

/-- Four distinct jobs with at least four bullets each, for the C9 witness. -/
def rdFourJobs : ResumeData :=
  mkResume
    [mkJob 1 ["a", "b", "c", "d", "e"], mkJob 2 ["a", "b", "c", "d"],
     mkJob 3 ["a", "b", "c", "d"], mkJob 4 ["a", "b", "c", "d"]] []

/-- C9 (witness): the amended bound evaluated on four well-formed jobs. -/
theorem claim9_allocation_amended_witness :
    totalExperienceBullets (optimizeBulletsForSinglePage rdFourJobs []) ≤ 18
    ∧ ∀ e ∈ (optimizeBulletsForSinglePage rdFourJobs []).experience,
        4 ≤ e.bullets.length :=
  claim9_allocation_amended rdFourJobs [] (by decide) (by decide) (by decide)

end Resume
